import Mathlib

set_option maxHeartbeats 1000000

/-!
Verification of the UAVCAN CAN transport core.

Shallow embedding of the transport layer of a UAVCAN stack:
the bit-stream codec, the frame tail-byte protocol with fragmentation
(`Transfer.to_frames`) and reassembly validation (`Transfer.from_frames`),
the reassembly bucket table (`TransferManager`), the array slice of the
serialization engine relevant to tail-array optimization, the input dispatch
index of the session router (`_compute_input_dispatch_table_index` and
`CANTransport._handle_received_frame`), and local node-id assignment
(`CANTransport.set_local_node_id`).

Python byte strings are embedded as `List Nat`, bit strings as `List Bool`
(most significant bit first, as in the source, which stores bits as text),
dictionaries as association lists, and fallible code returns `Except`.
-/

/-! ## Bit-stream codec (transport.py) -/

/-- Numeric value of one bit character. -/
def bitVal (b : Bool) : Nat := if b then 1 else 0

/-- Value of a bit string read MSB-first; embeds Python `int(s, 2)` applied to a
binary string.  Note the Python conversion interprets a string of ANY length as a
plain binary numeral, i.e. short strings are implicitly zero-extended on the left. -/
def bitsToNat (s : List Bool) : Nat := s.foldl (fun acc b => 2 * acc + bitVal b) 0

/-- Binary digits of a natural number, MSB-first, with no leading zeros
(empty for zero); building block for Python `format(n, "0kb")`. -/
def rawBits (n : Nat) : List Bool :=
  if n = 0 then [] else rawBits (n / 2) ++ [decide (n % 2 = 1)]
termination_by n
decreasing_by exact Nat.div_lt_self (Nat.pos_of_ne_zero (by assumption)) (by omega)

/-- Embeds Python `format(n, "0" ++ toString width ++ "b")`: binary digits of `n`
left-padded with zeros to `width` characters (and longer than `width` when `n`
needs more digits). -/
def natToBinStr (width n : Nat) : List Bool :=
  let raw := if n = 0 then [false] else rawBits n
  List.replicate (width - raw.length) false ++ raw

/-- Embeds `bits_from_bytes` of transport.py: every byte becomes its eight bits
MSB-first (`format(c, "08b")`), concatenated. -/
def bits_from_bytes (s : List Nat) : List Bool :=
  (s.map (natToBinStr 8)).flatten

/-- Embeds `bytes_from_bits` of transport.py:
`bytearray(int(s[i:i + 8], 2) for i in range(0, len(s), 8))`.
Each successive slice of up to eight bits is converted with `int(_, 2)`;
the final slice may be shorter than eight bits. -/
def bytes_from_bits (s : List Bool) : List Nat :=
  if s = [] then [] else bitsToNat (s.take 8) :: bytes_from_bits (s.drop 8)
termination_by s.length
decreasing_by
  rename_i h
  have : s.length ≠ 0 := fun hl => h (List.eq_nil_of_length_eq_zero hl)
  simp [List.length_drop]; omega

/-- Cutting a bit string into consecutive chunks of eight bits, the final chunk
possibly shorter.  Used to state the specification versions of `bytes_from_bits`. -/
def chunksOfEight (s : List Bool) : List (List Bool) :=
  if s = [] then [] else s.take 8 :: chunksOfEight (s.drop 8)
termination_by s.length
decreasing_by
  rename_i h
  have : s.length ≠ 0 := fun hl => h (List.eq_nil_of_length_eq_zero hl)
  simp [List.length_drop]; omega

/-- Modelled from the spec wording of C5 (the claimed behavior, for comparison
with the code): the bit string is extended on the right with `(-len(s)) mod 8`
zero bits up to a byte boundary and then every exact 8-bit chunk is read
MSB-first. -/
def bytesFromBitsPadRight (s : List Bool) : List Nat :=
  (chunksOfEight (s ++ List.replicate ((8 - s.length % 8) % 8) false)).map bitsToNat

/-- The behavior the code actually has: every full 8-bit chunk is read MSB-first
and a final short chunk is read as an MSB-first binary numeral of its own width,
i.e. it is zero-extended on the LEFT to a byte value, not padded on the right. -/
def bytesFromBitsLeftAligned (s : List Bool) : List Nat :=
  (chunksOfEight (s.take (8 * (s.length / 8)))).map bitsToNat ++
    (if s.length % 8 = 0 then [] else [bitsToNat (s.drop (8 * (s.length / 8)))])

lemma bytes_from_bits_nil : bytes_from_bits [] = [] := by
  rw [bytes_from_bits]; simp

lemma bytes_from_bits_cons (s : List Bool) (h : s ≠ []) :
    bytes_from_bits s = bitsToNat (s.take 8) :: bytes_from_bits (s.drop 8) := by
  rw [bytes_from_bits]; simp [h]

lemma chunksOfEight_nil : chunksOfEight [] = [] := by
  rw [chunksOfEight]; simp

lemma chunksOfEight_cons (s : List Bool) (h : s ≠ []) :
    chunksOfEight s = s.take 8 :: chunksOfEight (s.drop 8) := by
  rw [chunksOfEight]; simp [h]

lemma bytesFromBitsLeftAligned_nil : bytesFromBitsLeftAligned [] = [] := by
  unfold bytesFromBitsLeftAligned
  simp [chunksOfEight_nil]

lemma bytesFromBitsLeftAligned_cons (s : List Bool) (h8 : 8 ≤ s.length) :
    bytesFromBitsLeftAligned s
      = bitsToNat (s.take 8) :: bytesFromBitsLeftAligned (s.drop 8) := by
  have hrest : (s.drop 8).length = s.length - 8 := List.length_drop 8 s
  have htake_ne : s.take (8 * (s.length / 8)) ≠ [] := by
    intro hcon
    have hlen0 := congrArg List.length hcon
    rw [List.length_take] at hlen0
    simp only [List.length_nil] at hlen0
    omega
  unfold bytesFromBitsLeftAligned
  rw [chunksOfEight_cons _ htake_ne]
  have htt : (s.take (8 * (s.length / 8))).take 8 = s.take 8 := by
    rw [List.take_take]; congr 1; omega
  have htd : (s.take (8 * (s.length / 8))).drop 8
      = (s.drop 8).take (8 * ((s.drop 8).length / 8)) := by
    rw [List.drop_take]; congr 1; omega
  have hdd : s.drop (8 * (s.length / 8))
      = (s.drop 8).drop (8 * ((s.drop 8).length / 8)) := by
    rw [List.drop_drop]; congr 1; omega
  have hmod : s.length % 8 = (s.drop 8).length % 8 := by omega
  rw [htt, htd, hdd, hmod]
  simp

lemma bytes_from_bits_left_aligned_aux :
    ∀ (n : Nat) (s : List Bool), s.length ≤ n →
      bytes_from_bits s = bytesFromBitsLeftAligned s := by
  intro n
  induction n with
  | zero =>
      intro s hs
      have : s = [] := List.eq_nil_of_length_eq_zero (by omega)
      subst this
      rw [bytes_from_bits_nil, bytesFromBitsLeftAligned_nil]
  | succ n ih =>
      intro s hs
      by_cases hnil : s = []
      · subst hnil
        rw [bytes_from_bits_nil, bytesFromBitsLeftAligned_nil]
      · have hlen : 0 < s.length := List.length_pos.mpr hnil
        by_cases h8 : 8 ≤ s.length
        · rw [bytes_from_bits_cons s hnil, bytesFromBitsLeftAligned_cons s h8,
            ih (s.drop 8) (by simp [List.length_drop]; omega)]
        · -- fewer than eight bits: a single short chunk
          push_neg at h8
          have hdropnil : s.drop 8 = [] := List.drop_eq_nil_of_le (by omega)
          have htake8 : s.take 8 = s := List.take_of_length_le (by omega)
          rw [bytes_from_bits_cons s hnil, hdropnil, bytes_from_bits_nil, htake8]
          unfold bytesFromBitsLeftAligned
          have e1 : 8 * (s.length / 8) = 0 := by omega
          have e2 : ¬ (s.length % 8 = 0) := by omega
          rw [e1, if_neg e2]
          simp [chunksOfEight_nil]

/-- C5 (amended): for every bit string `s`, `bytes_from_bits s` reads every full
8-bit chunk MSB-first and reads the final partial chunk as an MSB-first binary
numeral of its own width, i.e. the tail is zero-extended on the LEFT of the final
chunk, not zero-padded on the right as the claim states. -/
theorem bytes_from_bits_left_aligned (s : List Bool) :
    bytes_from_bits s = bytesFromBitsLeftAligned s :=
  bytes_from_bits_left_aligned_aux s.length s (Nat.le_refl _)

/-- C5 counterexample: on the one-bit string "1" the code yields the byte 1
(the short chunk read as a binary numeral), while extending on the right with
seven zero bits as the claim states would yield the byte 128. -/
theorem bytes_from_bits_not_pad_right :
    bytes_from_bits [true] = [1] ∧ bytesFromBitsPadRight [true] = [128] ∧
      bytes_from_bits [true] ≠ bytesFromBitsPadRight [true] := by
  have hd : ([true] : List Bool).drop 8 = [] := by decide
  have ht : ([true] : List Bool).take 8 = [true] := by decide
  have h1 : bytes_from_bits [true] = [1] := by
    rw [bytes_from_bits_cons _ (by decide), hd, ht, bytes_from_bits_nil]
    decide
  have hp : ([true] ++ List.replicate ((8 - ([true] : List Bool).length % 8) % 8) false)
      = [true, false, false, false, false, false, false, false] := by decide
  have h2 : bytesFromBitsPadRight [true] = [128] := by
    unfold bytesFromBitsPadRight
    rw [hp, chunksOfEight_cons _ (by decide)]
    have hd8 : ([true, false, false, false, false, false, false, false] : List Bool).drop 8
        = [] := by decide
    have ht8 : ([true, false, false, false, false, false, false, false] : List Bool).take 8
        = [true, false, false, false, false, false, false, false] := by decide
    rw [hd8, ht8, chunksOfEight_nil]
    decide
  exact ⟨h1, h2, by simp [h1, h2]⟩

/-! ## Session router: input dispatch index (pyuavcan/transport/can/_can.py) -/

/-- Modelled from the spec: `MessageCANID.SUBJECT_ID_MASK` of _can_id.py (that
file is not under src/): the subject-id is 13 bits, 0..8191. -/
def SUBJECT_ID_MASK : Nat := 0x1FFF

/-- Modelled from the spec: `ServiceCANID.SERVICE_ID_MASK` of _can_id.py (that
file is not under src/): the service-id is 8 bits, 0..255. -/
def SERVICE_ID_MASK : Nat := 0xFF

/-- Modelled from the spec: `CANID.NODE_ID_MASK` of _can_id.py (that file is not
under src/): the node-id space is 0..127, mask 0x7F. -/
def NODE_ID_MASK : Nat := 0x7F

/-- Embeds `_NUM_SUBJECTS = _can_id.MessageCANID.SUBJECT_ID_MASK + 1`. -/
def NUM_SUBJECTS : Nat := SUBJECT_ID_MASK + 1

/-- Embeds `_NUM_SERVICES = _can_id.ServiceCANID.SERVICE_ID_MASK + 1`. -/
def NUM_SERVICES : Nat := SERVICE_ID_MASK + 1

/-- Embeds `_NUM_NODE_IDS = _can_id.CANID.NODE_ID_MASK + 1`. -/
def NUM_NODE_IDS : Nat := NODE_ID_MASK + 1

/-- Embeds `pyuavcan.transport.ServiceDataSpecifier.Role` (CLIENT / SERVER). -/
inductive ServiceRole
  | client
  | server
deriving DecidableEq, Repr, Fintype

/-- Embeds `pyuavcan.transport.DataSpecifier`: either a message data specifier
holding a subject-id, or a service data specifier holding a service-id and a
role. -/
inductive DataSpecifier
  | message (subject_id : Nat)
  | service (service_id : Nat) (role : ServiceRole)
deriving DecidableEq, Repr

/-- Embeds `_compute_input_dispatch_table_index` of _can.py:
`dim1` is the subject-id, or the service-id shifted past the subjects (CLIENT)
and further past the services (SERVER); `dim2` is the source node-id, or
`_NUM_NODE_IDS` for a promiscuous (None) source; the index is
`dim1 * (_NUM_NODE_IDS + 1) + dim2`. -/
def computeInputDispatchTableIndex (data_specifier : DataSpecifier)
    (source_node_id : Option Nat) : Nat :=
  let dim1 :=
    match data_specifier with
    | .message subject_id => subject_id
    | .service service_id .client => service_id + NUM_SUBJECTS
    | .service service_id .server => service_id + NUM_SUBJECTS + NUM_SERVICES
  let dim2_cardinality := NUM_NODE_IDS + 1
  let dim2 :=
    match source_node_id with
    | some n => n
    | none => NUM_NODE_IDS
  dim1 * dim2_cardinality + dim2

/-- Embeds `_INPUT_DISPATCH_TABLE_SIZE = (_NUM_SUBJECTS + _NUM_SERVICES * 2) * (_NUM_NODE_IDS + 1)`. -/
def INPUT_DISPATCH_TABLE_SIZE : Nat :=
  (NUM_SUBJECTS + NUM_SERVICES * 2) * (NUM_NODE_IDS + 1)

/-- A data specifier is legal when its identifier is within the modelled mask. -/
def LegalDataSpecifier : DataSpecifier → Prop
  | .message subject_id => subject_id < NUM_SUBJECTS
  | .service service_id _ => service_id < NUM_SERVICES

/-- A source filter is legal when it is promiscuous (None) or names a node id. -/
def LegalSource : Option Nat → Prop
  | some n => n < NUM_NODE_IDS
  | none => True

lemma dispatch_index_lt (ds : DataSpecifier) (src : Option Nat)
    (hds : LegalDataSpecifier ds) (hsrc : LegalSource src) :
    computeInputDispatchTableIndex ds src < INPUT_DISPATCH_TABLE_SIZE := by
  rcases ds with s | ⟨v, r⟩ <;> (try cases r) <;> rcases src with _ | n <;>
    simp only [LegalDataSpecifier, LegalSource, computeInputDispatchTableIndex,
      INPUT_DISPATCH_TABLE_SIZE, NUM_SUBJECTS, NUM_SERVICES, NUM_NODE_IDS,
      SUBJECT_ID_MASK, SERVICE_ID_MASK, NODE_ID_MASK] at * <;>
    omega

lemma dispatch_index_inj (ds₁ : DataSpecifier) (src₁ : Option Nat)
    (ds₂ : DataSpecifier) (src₂ : Option Nat)
    (h₁ : LegalDataSpecifier ds₁) (hs₁ : LegalSource src₁)
    (h₂ : LegalDataSpecifier ds₂) (hs₂ : LegalSource src₂)
    (heq : computeInputDispatchTableIndex ds₁ src₁ = computeInputDispatchTableIndex ds₂ src₂) :
    ds₁ = ds₂ ∧ src₁ = src₂ := by
  rcases ds₁ with s₁ | ⟨v₁, r₁⟩ <;> (try cases r₁) <;>
    rcases ds₂ with s₂ | ⟨v₂, r₂⟩ <;> (try cases r₂) <;>
      rcases src₁ with _ | n₁ <;> rcases src₂ with _ | n₂ <;>
        simp only [LegalDataSpecifier, LegalSource, computeInputDispatchTableIndex,
          NUM_SUBJECTS, NUM_SERVICES, NUM_NODE_IDS,
          SUBJECT_ID_MASK, SERVICE_ID_MASK, NODE_ID_MASK] at * <;>
        refine ⟨?_, ?_⟩ <;>
          first
            | rfl
            | omega
            | (congr 1 <;> first | rfl | omega)

/-- Encoding of a legal data specifier from a finite index type, used to count
the distinct dispatch indices. -/
def legalInputSpecifier : Fin NUM_SUBJECTS ⊕ Fin NUM_SERVICES × ServiceRole → DataSpecifier
  | .inl s => .message s.val
  | .inr (v, r) => .service v.val r

/-- Encoding of a legal source filter from a finite index type. -/
def legalInputSource : Option (Fin NUM_NODE_IDS) → Option Nat :=
  Option.map Fin.val

lemma legalInputSpecifier_legal (x : Fin NUM_SUBJECTS ⊕ Fin NUM_SERVICES × ServiceRole) :
    LegalDataSpecifier (legalInputSpecifier x) := by
  rcases x with s | ⟨v, r⟩
  · exact s.isLt
  · exact v.isLt

lemma legalInputSource_legal (x : Option (Fin NUM_NODE_IDS)) :
    LegalSource (legalInputSource x) := by
  rcases x with _ | n
  · trivial
  · exact n.isLt

lemma legalInputSpecifier_inj : Function.Injective legalInputSpecifier := by
  intro a b h
  rcases a with s₁ | ⟨v₁, r₁⟩ <;> rcases b with s₂ | ⟨v₂, r₂⟩ <;>
    simp [legalInputSpecifier] at h ⊢
  · exact Fin.ext h
  · exact ⟨Fin.ext h.1, h.2⟩

/-- C3: the input dispatch index function is injective over all legal inputs
(every message data specifier with subject-id in range and every service data
specifier with service-id in range and role CLIENT or SERVER, paired with every
source node-id in `0..NUM_NODE_IDS-1` or None), every index lies below
`INPUT_DISPATCH_TABLE_SIZE = (NUM_SUBJECTS + 2 * NUM_SERVICES) * (NUM_NODE_IDS + 1)`,
and the number of distinct indices over all legal inputs is exactly that size. -/
theorem input_dispatch_index_bijection :
    (∀ ds₁ src₁ ds₂ src₂, LegalDataSpecifier ds₁ → LegalSource src₁ →
        LegalDataSpecifier ds₂ → LegalSource src₂ →
        computeInputDispatchTableIndex ds₁ src₁ = computeInputDispatchTableIndex ds₂ src₂ →
        ds₁ = ds₂ ∧ src₁ = src₂) ∧
    (∀ ds src, LegalDataSpecifier ds → LegalSource src →
        computeInputDispatchTableIndex ds src < INPUT_DISPATCH_TABLE_SIZE) ∧
    (Finset.image
        (fun p : (Fin NUM_SUBJECTS ⊕ Fin NUM_SERVICES × ServiceRole) × Option (Fin NUM_NODE_IDS) =>
          computeInputDispatchTableIndex (legalInputSpecifier p.1) (legalInputSource p.2))
        Finset.univ).card = INPUT_DISPATCH_TABLE_SIZE := by
  refine ⟨fun ds₁ src₁ ds₂ src₂ h₁ hs₁ h₂ hs₂ heq =>
      dispatch_index_inj ds₁ src₁ ds₂ src₂ h₁ hs₁ h₂ hs₂ heq,
    fun ds src hds hsrc => dispatch_index_lt ds src hds hsrc, ?_⟩
  have hinj : Function.Injective
      (fun p : (Fin NUM_SUBJECTS ⊕ Fin NUM_SERVICES × ServiceRole) × Option (Fin NUM_NODE_IDS) =>
        computeInputDispatchTableIndex (legalInputSpecifier p.1) (legalInputSource p.2)) := by
    rintro ⟨a₁, b₁⟩ ⟨a₂, b₂⟩ h
    obtain ⟨hds, hsrc⟩ := dispatch_index_inj _ _ _ _
      (legalInputSpecifier_legal a₁) (legalInputSource_legal b₁)
      (legalInputSpecifier_legal a₂) (legalInputSource_legal b₂) h
    have ha : a₁ = a₂ := legalInputSpecifier_inj hds
    have hb : b₁ = b₂ := Option.map_injective Fin.val_injective hsrc
    simp [ha, hb]
  rw [Finset.card_image_of_injective _ hinj, Finset.card_univ]
  simp only [Fintype.card_prod, Fintype.card_sum, Fintype.card_option, Fintype.card_fin]
  rw [show Fintype.card ServiceRole = 2 by decide]
  norm_num [NUM_SUBJECTS, NUM_SERVICES, NUM_NODE_IDS,
    SUBJECT_ID_MASK, SERVICE_ID_MASK, NODE_ID_MASK, INPUT_DISPATCH_TABLE_SIZE]

/-- Witness for C3: the theorem applied at a concrete legal input. -/
theorem input_dispatch_index_bijection_witness :
    (DataSpecifier.message 100 = DataSpecifier.message 100 ∧
        (some 7 : Option Nat) = some 7) ∧
      computeInputDispatchTableIndex (DataSpecifier.message 100) (some 7)
        < INPUT_DISPATCH_TABLE_SIZE :=
  ⟨input_dispatch_index_bijection.1 (.message 100) (some 7) (.message 100) (some 7)
      (by decide : (100 : Nat) < NUM_SUBJECTS) (by decide : (7 : Nat) < NUM_NODE_IDS)
      (by decide : (100 : Nat) < NUM_SUBJECTS) (by decide : (7 : Nat) < NUM_NODE_IDS) rfl,
    input_dispatch_index_bijection.2.1 (.message 100) (some 7)
      (by decide : (100 : Nat) < NUM_SUBJECTS) (by decide : (7 : Nat) < NUM_NODE_IDS)⟩

/-! ## Frames and inbound routing -/

/-- Embeds `Frame` of transport.py: the 29-bit CAN identifier and the data
bytes.  The two timestamp fields of the source class are not modelled (no claim
concerns them); the last byte of a non-empty payload is the tail byte. -/
structure Frame where
  message_id : Nat
  bytes : List Nat
deriving DecidableEq, Repr

/-- Embeds the parsed CAN identifiers `MessageCANID` and `ServiceCANID` used by
`CANTransport._handle_received_frame` (the parser itself lives in _can_id.py,
which is not under src/; claim C6 only concerns identifiers already parsed as a
message or a service). -/
inductive CANID
  | message (priority : Nat) (subject_id : Nat) (source_node_id : Nat)
  | service (priority : Nat) (service_id : Nat) (request_not_response : Bool)
      (destination_node_id : Nat) (source_node_id : Nat)
deriving DecidableEq, Repr

/-- Modelled from the spec: `CANID.to_input_data_specifier` of _can_id.py (not
under src/): a message maps to its subject; a received service request is input
to the SERVER role, a received response to the CLIENT role. -/
def CANID.toInputDataSpecifier : CANID → DataSpecifier
  | .message _ subject_id _ => .message subject_id
  | .service _ service_id request_not_response _ _ =>
      .service service_id (if request_not_response then .server else .client)

/-- The source node-id carried by a parsed message or service CAN identifier. -/
def CANID.sourceNodeId : CANID → Nat
  | .message _ _ source_node_id => source_node_id
  | .service _ _ _ _ source_node_id => source_node_id

/-- Embeds `CANTransport._handle_received_frame` of _can.py: compute the input
data specifier, then for each element of the set `{exact_source_node_id, None}`
(embedded as the two-element list `[some exact, none]`; the two elements are
always distinct) look up the input dispatch table and push the frame to every
populated slot.  The dense table list is abstracted as the function from index
to stored session, and sessions are identified by numeric handles; the returned
list is the sequence of `session.push_frame` calls performed. -/
def handleReceivedFrame (table : Nat → Option Nat) (can_id : CANID) (frame : Frame) :
    List (Nat × Frame) :=
  let data_spec := can_id.toInputDataSpecifier
  let exact_source_node_id := can_id.sourceNodeId
  ([some exact_source_node_id, none] : List (Option Nat)).filterMap fun nid =>
    match table (computeInputDispatchTableIndex data_spec nid) with
    | some session => some (session, frame)
    | none => none

lemma handleReceivedFrame_expand (table : Nat → Option Nat) (can_id : CANID) (frame : Frame) :
    handleReceivedFrame table can_id frame =
      (match table (computeInputDispatchTableIndex can_id.toInputDataSpecifier
          (some can_id.sourceNodeId)) with
        | some session => [(session, frame)]
        | none => []) ++
      (match table (computeInputDispatchTableIndex can_id.toInputDataSpecifier none) with
        | some session => [(session, frame)]
        | none => []) := by
  unfold handleReceivedFrame
  cases h1 : table (computeInputDispatchTableIndex can_id.toInputDataSpecifier
      (some can_id.sourceNodeId)) <;>
    cases h2 : table (computeInputDispatchTableIndex can_id.toInputDataSpecifier none) <;>
      simp [List.filterMap, h1, h2]

/-- C6: the router performs exactly two dispatch lookups per received
non-loopback frame, one at the exact source slot and one at the promiscuous
slot, and pushes the frame to every populated slot among the two.  In
particular (scenario S3, with the subject-100 dispatch slots for source 7
selective and promiscuous populated and the slot for source 9 empty): a frame
from source 7 is pushed to both the selective and the promiscuous session,
while a frame from source 9 ≠ 7 is pushed to the promiscuous session only. -/
theorem handle_received_frame_dual_lookup (table : Nat → Option Nat) (frame : Frame) :
    (∀ can_id session, (session, frame) ∈ handleReceivedFrame table can_id frame ↔
        table (computeInputDispatchTableIndex can_id.toInputDataSpecifier
            (some can_id.sourceNodeId)) = some session ∨
        table (computeInputDispatchTableIndex can_id.toInputDataSpecifier none)
            = some session) ∧
    (∀ priority subject_id src src' selective_session promiscuous_session,
        src' ≠ src →
        table (computeInputDispatchTableIndex (.message subject_id) (some src))
            = some selective_session →
        table (computeInputDispatchTableIndex (.message subject_id) none)
            = some promiscuous_session →
        table (computeInputDispatchTableIndex (.message subject_id) (some src')) = none →
        handleReceivedFrame table (.message priority subject_id src) frame
            = [(selective_session, frame), (promiscuous_session, frame)] ∧
          handleReceivedFrame table (.message priority subject_id src') frame
            = [(promiscuous_session, frame)]) := by
  constructor
  · intro can_id session
    rw [handleReceivedFrame_expand]
    cases h1 : table (computeInputDispatchTableIndex can_id.toInputDataSpecifier
        (some can_id.sourceNodeId)) <;>
      cases h2 : table (computeInputDispatchTableIndex can_id.toInputDataSpecifier none) <;>
        simp [eq_comm]
  · intro priority subject_id src src' selective_session promiscuous_session
      _hne hsel hprom hnone
    constructor
    · rw [handleReceivedFrame_expand]
      simp only [CANID.toInputDataSpecifier, CANID.sourceNodeId]
      rw [hsel, hprom]
      rfl
    · rw [handleReceivedFrame_expand]
      simp only [CANID.toInputDataSpecifier, CANID.sourceNodeId]
      rw [hnone, hprom]
      rfl

/-- A concrete dispatch table for the witness of C6: session 1 is a selective
input for subject 100 source 7, session 2 a promiscuous input for subject 100. -/
def witnessTable : Nat → Option Nat := fun i =>
  if i = computeInputDispatchTableIndex (.message 100) (some 7) then some 1
  else if i = computeInputDispatchTableIndex (.message 100) none then some 2
  else none

/-- Witness for C6: the theorem applied at the concrete S3 scenario. -/
theorem handle_received_frame_dual_lookup_witness :
    handleReceivedFrame witnessTable (.message 16 100 7) ⟨0, [0xC5]⟩
        = [(1, ⟨0, [0xC5]⟩), (2, ⟨0, [0xC5]⟩)] ∧
      handleReceivedFrame witnessTable (.message 16 100 9) ⟨0, [0xC5]⟩
        = [(2, ⟨0, [0xC5]⟩)] :=
  (handle_received_frame_dual_lookup witnessTable ⟨0, [0xC5]⟩).2 16 100 7 9 1 2
    (by decide) (by decide) (by decide) (by decide)

/-! ## Transport facade: local node-id assignment (_can.py) -/

/-- The two error outcomes of `CANTransport.set_local_node_id`:
`pyuavcan.transport.InvalidTransportConfigurationError` for reassignment, and a
plain Python `ValueError` for an out-of-range node-id. -/
inductive NodeIdSetError
  | invalidTransportConfiguration
  | valueError
deriving DecidableEq, Repr

/-- Embeds `CANTransport.set_local_node_id`: the transport state is abstracted
to its `_local_node_id` field, the only state the method reads or writes (the
media retransmission call and the acceptance-filter reconfiguration are
external effects with no transport state).  The argument is an integer; when no
node-id is assigned yet and `0 <= node_id <= _can_id.CANID.NODE_ID_MASK` the id
is stored (and is then retrievable through the `local_node_id` property, which
returns the field unchanged); when it is out of range a `ValueError` is raised;
when a node-id is already assigned an
`InvalidTransportConfigurationError` is raised. -/
def setLocalNodeId (local_node_id : Option Int) (node_id : Int) :
    Except NodeIdSetError (Option Int) :=
  match local_node_id with
  | none =>
      if 0 ≤ node_id ∧ node_id ≤ (NODE_ID_MASK : Int) then .ok (some node_id)
      else .error .valueError
  | some _ => .error .invalidTransportConfiguration

/-- C9 (amended): `set_local_node_id` assigns the node id at most once.  It
fails with `InvalidTransportConfigurationError` whenever a local node-id is
already set (so a second call always fails, with any argument); it fails when
the argument is outside `0..127`, but with a plain `ValueError`, NOT with the
`InvalidTransportConfiguration` classification the claim takes from the spec
error taxonomy; on success it stores the id, which `local_node_id` then
returns. -/
theorem set_local_node_id_assign_once :
    (∀ prev node_id, setLocalNodeId (some prev) node_id
        = .error .invalidTransportConfiguration) ∧
    (∀ node_id : Int, node_id < 0 ∨ 127 < node_id →
        setLocalNodeId none node_id = .error .valueError) ∧
    (∀ node_id : Int, 0 ≤ node_id → node_id ≤ 127 →
        setLocalNodeId none node_id = .ok (some node_id)) := by
  refine ⟨fun prev node_id => rfl, fun node_id h => ?_, fun node_id h0 h127 => ?_⟩
  · unfold setLocalNodeId
    rw [if_neg]
    unfold NODE_ID_MASK
    omega
  · unfold setLocalNodeId
    rw [if_pos]
    unfold NODE_ID_MASK
    omega

/-- Witness for C9: the theorem applied at concrete inputs. -/
theorem set_local_node_id_assign_once_witness :
    setLocalNodeId (some 42) 10 = .error .invalidTransportConfiguration ∧
      setLocalNodeId none 128 = .error .valueError ∧
      setLocalNodeId none 42 = .ok (some 42) :=
  ⟨set_local_node_id_assign_once.1 42 10,
    set_local_node_id_assign_once.2.1 128 (by omega),
    set_local_node_id_assign_once.2.2 42 (by omega) (by omega)⟩

/-- C9 counterexample: at the concrete out-of-range argument 128 on a fresh
transport, the code raises a plain `ValueError`, not the
`InvalidTransportConfiguration` error kind named by the claim. -/
theorem set_local_node_id_range_error_kind :
    setLocalNodeId none 128 = .error .valueError ∧
      setLocalNodeId none 128 ≠ .error .invalidTransportConfiguration := by
  refine ⟨?_, ?_⟩ <;> unfold setLocalNodeId NODE_ID_MASK <;> norm_num
  intro hcon
  cases hcon

/-! ## Reassembly bucket table: TransferManager (transport.py) -/

/-- Embeds `Frame.transfer_key`: the transfer is identified by the 29-bit
message id and the 5-bit transfer-id in the low bits of the tail byte; an empty
frame has key component None. -/
def Frame.transfer_key (f : Frame) : Nat × Option Nat :=
  (f.message_id,
    match f.bytes.getLast? with
    | some tail => some (tail &&& 0x1F)
    | none => none)

/-- Embeds `Frame.start_of_transfer`: bit 7 of the tail byte (false for an
empty frame). -/
def Frame.start_of_transfer (f : Frame) : Bool :=
  match f.bytes.getLast? with
  | some tail => tail &&& 0x80 != 0
  | none => false

/-- Embeds `Frame.end_of_transfer`: bit 6 of the tail byte (false for an empty
frame). -/
def Frame.end_of_transfer (f : Frame) : Bool :=
  match f.bytes.getLast? with
  | some tail => tail &&& 0x40 != 0
  | none => false

/-- Association-list lookup; embeds Python dictionary indexing. -/
def alookup {K V : Type} [DecidableEq K] : List (K × V) → K → Option V
  | [], _ => none
  | (k, v) :: rest, key => if key = k then some v else alookup rest key

/-- Association-list update-or-append; embeds Python dictionary assignment. -/
def alinsert {K V : Type} [DecidableEq K] : List (K × V) → K → V → List (K × V)
  | [], key, value => [(key, value)]
  | (k, v) :: rest, key, value =>
      if key = k then (k, value) :: rest else (k, v) :: alinsert rest key value

/-- Association-list deletion; embeds Python `del d[key]`. -/
def alerase {K V : Type} [DecidableEq K] : List (K × V) → K → List (K × V)
  | [], _ => []
  | (k, v) :: rest, key =>
      if key = k then alerase rest key else (k, v) :: alerase rest key

lemma alookup_alinsert {K V : Type} [DecidableEq K] (l : List (K × V)) (k k' : K) (v : V) :
    alookup (alinsert l k v) k' = if k' = k then some v else alookup l k' := by
  induction l with
  | nil => simp only [alinsert, alookup]
  | cons kv rest ih =>
      obtain ⟨k₀, v₀⟩ := kv
      simp only [alinsert]
      by_cases h0 : k = k₀
      · subst h0
        by_cases h : k' = k <;> simp [alookup, h]
      · rw [if_neg h0]
        by_cases h1 : k' = k₀
        · have h2 : k' ≠ k := by
            intro hc
            exact h0 (hc.symm.trans h1)
          have h3 : ¬ k₀ = k := fun hc => h0 hc.symm
          simp [alookup, h1, h2, h3]
        · simp [alookup, h1, ih]

lemma alookup_alerase {K V : Type} [DecidableEq K] (l : List (K × V)) (k k' : K) :
    alookup (alerase l k) k' = if k' = k then none else alookup l k' := by
  induction l with
  | nil => simp only [alerase, alookup]; simp
  | cons kv rest ih =>
      obtain ⟨k₀, v₀⟩ := kv
      simp only [alerase]
      by_cases h0 : k = k₀
      · subst h0
        by_cases h : k' = k
        · subst h
          simp [alookup, ih]
        · simp [alookup, h, ih]
      · rw [if_neg h0]
        by_cases h1 : k' = k₀
        · have h2 : k' ≠ k := by
            intro hc
            exact h0 (hc.symm.trans h1)
          have h3 : ¬ k₀ = k := fun hc => h0 hc.symm
          simp [alookup, h1, h2, h3]
        · simp [alookup, h1, ih]

lemma alookup_filter_key {K V : Type} [DecidableEq K] (l : List (K × V)) (p : K → Bool) (k : K) :
    alookup (l.filter (fun kv => p kv.1)) k = if p k then alookup l k else none := by
  induction l with
  | nil => by_cases h : p k <;> simp [alookup, h]
  | cons kv rest ih =>
      obtain ⟨k₀, v₀⟩ := kv
      by_cases h : k = k₀
      · subst h
        cases hp : p k <;> simp [List.filter, hp, alookup, ih]
      · cases hp : p k₀ <;> cases hpk : p k <;>
          simp [List.filter, hp, hpk, alookup, h, ih]

/-- Embeds the `TransferManager` state of transport.py: the bucket map
`active_transfers` (a `defaultdict(list)`) and the timestamp map
`active_transfer_timestamps`, both keyed by the transfer key. -/
structure TransferManager where
  active_transfers : List ((Nat × Option Nat) × List Frame)
  active_transfer_timestamps : List ((Nat × Option Nat) × Nat)
deriving DecidableEq, Repr

/-- The state built by `TransferManager.__init__`: both maps empty. -/
def TransferManager.initial : TransferManager := ⟨[], []⟩

/-- Embeds `TransferManager.receive_frame`; `now` stands for the value of
`time.monotonic()` at the call.  If the key has a bucket or the frame carries
start-of-transfer, the frame is appended (the defaultdict creates the bucket)
and the timestamp refreshed; then, on end-of-transfer, the bucket is removed
from both maps and returned.  Otherwise the state is returned unchanged with no
result. -/
def TransferManager.receive_frame (tm : TransferManager) (frame : Frame) (now : Nat) :
    TransferManager × Option (List Frame) :=
  let key := frame.transfer_key
  if (alookup tm.active_transfers key).isSome || frame.start_of_transfer then
    let bucket := (alookup tm.active_transfers key).getD [] ++ [frame]
    let transfers := alinsert tm.active_transfers key bucket
    let timestamps := alinsert tm.active_transfer_timestamps key now
    if frame.end_of_transfer then
      (⟨alerase transfers key, alerase timestamps key⟩, some bucket)
    else
      (⟨transfers, timestamps⟩, none)
  else
    (tm, none)

/-- The expiry test of `TransferManager.remove_inactive_transfers` for one key:
`t - self.active_transfer_timestamps[key] > timeout`.  A key missing from the
timestamp map would raise KeyError in the source; that point is unreachable
from the initial state (theorem for C10), and the model keeps such a key. -/
def TransferManager.expired (tm : TransferManager) (now timeout : Nat)
    (key : Nat × Option Nat) : Bool :=
  match alookup tm.active_transfer_timestamps key with
  | some t0 => decide (timeout < now - t0)
  | none => false

/-- Embeds `TransferManager.remove_inactive_transfers`: every bucket key whose
timestamp is older than the timeout is deleted from both maps (the source
iterates the bucket keys and deletes from both dictionaries). -/
def TransferManager.remove_inactive_transfers (tm : TransferManager) (now timeout : Nat) :
    TransferManager :=
  ⟨tm.active_transfers.filter (fun kv => !(tm.expired now timeout kv.1)),
    tm.active_transfer_timestamps.filter
      (fun kv => !((alookup tm.active_transfers kv.1).isSome && tm.expired now timeout kv.1))⟩

/-- C7: a frame with start-of-transfer clear whose transfer key has no bucket
is dropped silently: `receive_frame` returns no transfer and leaves the whole
state (both the bucket map and the timestamp map) unchanged. -/
theorem receive_frame_drops_mid_transfer_without_context
    (tm : TransferManager) (frame : Frame) (now : Nat)
    (hsot : frame.start_of_transfer = false)
    (hmiss : alookup tm.active_transfers frame.transfer_key = none) :
    tm.receive_frame frame now = (tm, none) := by
  simp [TransferManager.receive_frame, hmiss, hsot]

/-- Witness for C7: the theorem applied at a concrete state and frame.  The
state holds one unrelated bucket; the frame tail byte 0x05 has
start-of-transfer clear and transfer-id 5, and its key (7, 5) has no bucket. -/
theorem receive_frame_drops_mid_transfer_without_context_witness :
    TransferManager.receive_frame
        ⟨[((5, some 3), [⟨5, [0x83]⟩])], [((5, some 3), 100)]⟩ ⟨7, [0x05]⟩ 200
      = (⟨[((5, some 3), [⟨5, [0x83]⟩])], [((5, some 3), 100)]⟩, none) :=
  receive_frame_drops_mid_transfer_without_context
    ⟨[((5, some 3), [⟨5, [0x83]⟩])], [((5, some 3), 100)]⟩ ⟨7, [0x05]⟩ 200
    (by decide) (by decide)

/-- The key sets of the two TransferManager maps agree. -/
def TransferManager.SameKeys (tm : TransferManager) : Prop :=
  ∀ key, (alookup tm.active_transfers key).isSome
    ↔ (alookup tm.active_transfer_timestamps key).isSome

/-- States reachable from the fresh TransferManager by any sequence of
`receive_frame` and `remove_inactive_transfers` calls. -/
inductive TransferManager.Reachable : TransferManager → Prop
  | init : TransferManager.Reachable TransferManager.initial
  | recv (tm : TransferManager) (frame : Frame) (now : Nat) :
      TransferManager.Reachable tm →
      TransferManager.Reachable (tm.receive_frame frame now).1
  | sweep (tm : TransferManager) (now timeout : Nat) :
      TransferManager.Reachable tm →
      TransferManager.Reachable (tm.remove_inactive_transfers now timeout)

lemma receive_frame_append_eot (tm : TransferManager) (frame : Frame) (now : Nat)
    (hc : ((alookup tm.active_transfers frame.transfer_key).isSome
        || frame.start_of_transfer) = true)
    (he : frame.end_of_transfer = true) :
    tm.receive_frame frame now =
      (⟨alerase (alinsert tm.active_transfers frame.transfer_key
            ((alookup tm.active_transfers frame.transfer_key).getD [] ++ [frame]))
          frame.transfer_key,
        alerase (alinsert tm.active_transfer_timestamps frame.transfer_key now)
          frame.transfer_key⟩,
        some ((alookup tm.active_transfers frame.transfer_key).getD [] ++ [frame])) := by
  simp [TransferManager.receive_frame, hc, he]

lemma receive_frame_append_cont (tm : TransferManager) (frame : Frame) (now : Nat)
    (hc : ((alookup tm.active_transfers frame.transfer_key).isSome
        || frame.start_of_transfer) = true)
    (he : frame.end_of_transfer = false) :
    tm.receive_frame frame now =
      (⟨alinsert tm.active_transfers frame.transfer_key
          ((alookup tm.active_transfers frame.transfer_key).getD [] ++ [frame]),
        alinsert tm.active_transfer_timestamps frame.transfer_key now⟩, none) := by
  simp [TransferManager.receive_frame, hc, he]

lemma receive_frame_no_context (tm : TransferManager) (frame : Frame) (now : Nat)
    (hc : ((alookup tm.active_transfers frame.transfer_key).isSome
        || frame.start_of_transfer) = false) :
    tm.receive_frame frame now = (tm, none) := by
  simp [TransferManager.receive_frame, hc]

lemma receive_frame_preserves_sameKeys (tm : TransferManager) (frame : Frame) (now : Nat)
    (h : tm.SameKeys) : ((tm.receive_frame frame now).1).SameKeys := by
  by_cases hc : ((alookup tm.active_transfers frame.transfer_key).isSome
      || frame.start_of_transfer) = true
  · by_cases he : frame.end_of_transfer = true
    · rw [receive_frame_append_eot tm frame now hc he]
      intro k
      dsimp only
      simp only [alookup_alerase, alookup_alinsert]
      by_cases hk : k = frame.transfer_key <;> simp [hk, h k]
    · rw [receive_frame_append_cont tm frame now hc (by simpa using he)]
      intro k
      dsimp only
      simp only [alookup_alinsert]
      by_cases hk : k = frame.transfer_key <;> simp [hk, h k]
  · rw [receive_frame_no_context tm frame now (by simpa using hc)]
    exact h

lemma remove_inactive_preserves_sameKeys (tm : TransferManager) (now timeout : Nat)
    (h : tm.SameKeys) : (tm.remove_inactive_transfers now timeout).SameKeys := by
  intro k
  unfold TransferManager.remove_inactive_transfers
  dsimp only
  rw [alookup_filter_key tm.active_transfers (fun key => !(tm.expired now timeout key)) k,
    alookup_filter_key tm.active_transfer_timestamps
      (fun key => !((alookup tm.active_transfers key).isSome && tm.expired now timeout key)) k]
  cases hexp : tm.expired now timeout k <;>
    cases hlk : (alookup tm.active_transfers k).isSome <;>
      simp [hexp, hlk, ← h k]

/-- C10: in every TransferManager state reachable from the initial state by any
sequence of `receive_frame` and `remove_inactive_transfers` calls, the key set
of the bucket map equals the key set of the timestamp map: every operation
creates, updates or deletes entries in the two maps together. -/
theorem transfer_manager_reachable_same_keys (tm : TransferManager)
    (h : TransferManager.Reachable tm) : tm.SameKeys := by
  induction h with
  | init => intro key; simp [TransferManager.initial, alookup]
  | recv tm frame now _ ih => exact receive_frame_preserves_sameKeys tm frame now ih
  | sweep tm now timeout _ ih => exact remove_inactive_preserves_sameKeys tm now timeout ih

/-- Witness for C10: the theorem applied to a concrete reachable state, the
result of receiving one start-of-transfer frame in the fresh manager. -/
theorem transfer_manager_reachable_same_keys_witness :
    ((TransferManager.initial.receive_frame ⟨5, [1, 0x85]⟩ 100).1).SameKeys :=
  transfer_manager_reachable_same_keys _
    (TransferManager.Reachable.recv TransferManager.initial ⟨5, [1, 0x85]⟩ 100
      TransferManager.Reachable.init)

/-! ## Serialization engine, array slice (transport.py): tail-array optimization -/

/-- Embeds `be_from_le_bits` of transport.py: require at least `bitlen` bits
(fewer raise ValueError, modelled by `none`), truncate to the first `bitlen`,
then reverse the byte-sized chunks. -/
def be_from_le_bits (s : List Bool) (bitlen : Nat) : Option (List Bool) :=
  if s.length < bitlen then none
  else some ((chunksOfEight (s.take bitlen)).reverse.flatten)

/-- Byte-sized chunks taken from the right end of a bit string, emitted
right-to-left; the recursive core of `le_from_be_bits`. -/
def beLeSwap (t : List Bool) : List Bool :=
  if t = [] then [] else t.drop (t.length - 8) ++ beLeSwap (t.take (t.length - 8))
termination_by t.length
decreasing_by
  rename_i h
  have : t.length ≠ 0 := fun hl => h (List.eq_nil_of_length_eq_zero hl)
  simp [List.length_take]; omega

/-- Embeds `le_from_be_bits` of transport.py: require at least `bitlen` bits,
keep the last `bitlen`, then join the byte-sized chunks counted from the right
end in reverse order. -/
def le_from_be_bits (s : List Bool) (bitlen : Nat) : Option (List Bool) :=
  if s.length < bitlen then none
  else some (beLeSwap (s.drop (s.length - bitlen)))

/-- Embeds `dsdl.ArrayType.mode`. -/
inductive ArrayMode
  | static
  | dynamic
deriving DecidableEq, Repr

/-- The slice of `dsdl.ArrayType` read by `ArrayValue`: the mode, the maximum
size, and `value_bitlen = getattr(self._type.value_type, "bitlen", 0)` — the
bit length of the element type, with 0 standing for an element type that has no
`bitlen` attribute (arrays and compounds). -/
structure ArrayType where
  mode : ArrayMode
  max_size : Nat
  value_bitlen : Nat
deriving DecidableEq, Repr

/-- Embeds an `ArrayValue` with primitive element values: the descriptor, the
resolved `_tao` flag, and the `_bits` string of each item (empty for a
default-initialized item whose `_bits` is None). -/
structure ArrayValue where
  type : ArrayType
  tao : Bool
  items : List (List Bool)
deriving DecidableEq, Repr

/-- Embeds `ArrayValue.__init__`:
`self._tao = _tao if value_bitlen >= 8 else False`, so the tail-array flag
passed by the enclosing context is overridden to False whenever the element bit
width is below eight; a static array pre-populates `max_size` default items, a
dynamic array starts empty. -/
def ArrayValue.init (t : ArrayType) (tao_arg : Bool) : ArrayValue :=
  { type := t
    tao := if 8 ≤ t.value_bitlen then tao_arg else false
    items :=
      match t.mode with
      | .static => List.replicate t.max_size []
      | .dynamic => [] }

/-- Embeds `int(math.ceil(math.log(max_size, 2))) or 1`, the width of the
dynamic-array length field (`max_size` must be positive; the Python value for
`max_size = 1` is 0, which `or` replaces with 1). -/
def countWidth (max_size : Nat) : Nat := max (Nat.clog 2 max_size) 1

/-- Embeds `BaseValue._pack` for a primitive item of width `bitlen`:
`le_from_be_bits(self._bits, bitlen)` when `_bits` is set, else `bitlen` zero
bits. -/
def elementPack (bitlen : Nat) (bits : List Bool) : Option (List Bool) :=
  if bits ≠ [] then le_from_be_bits bits bitlen
  else some (List.replicate bitlen false)

/-- Embeds `BaseValue._unpack` for a primitive item of width `bitlen`: when the
width is nonzero, take `be_from_le_bits(stream, bitlen)` as the new `_bits` and
return the stream with `bitlen` bits consumed; a zero width leaves the stream
untouched. -/
def elementUnpack (bitlen : Nat) (stream : List Bool) :
    Option (List Bool × List Bool) :=
  if bitlen ≠ 0 then
    match be_from_le_bits stream bitlen with
    | some bits => some (bits, stream.drop bitlen)
    | none => none
  else some ([], stream)

/-- The element loop of the static and the non-TAO dynamic branches of
`ArrayValue._unpack`: unpack exactly `count` items in sequence. -/
def unpackElements (bitlen : Nat) : Nat → List Bool → Option (List (List Bool) × List Bool)
  | 0, stream => some ([], stream)
  | count + 1, stream => do
      let (bits, rest) ← elementUnpack bitlen stream
      let (items, rest') ← unpackElements bitlen count rest
      some (bits :: items, rest')

/-- The TAO loop of `ArrayValue._unpack`: `while len(stream) >= 8` unpack one
item.  The source loop does not terminate when the element width is zero, hence
the explicit fuel; `none` stands for fuel exhaustion or an unpack error. -/
def unpackElementsTao (bitlen : Nat) : Nat → List Bool → Option (List (List Bool) × List Bool)
  | 0, _ => none
  | fuel + 1, stream =>
      if 8 ≤ stream.length then do
        let (bits, rest) ← elementUnpack bitlen stream
        let (items, rest') ← unpackElementsTao bitlen fuel rest
        some (bits :: items, rest')
      else some ([], stream)

/-- The join `"".join(i._pack() for i in items)` over primitive items. -/
def packItems (bitlen : Nat) : List (List Bool) → Option (List Bool)
  | [] => some []
  | bits :: rest => do
      let p ← elementPack bitlen bits
      let ps ← packItems bitlen rest
      some (p ++ ps)

/-- Embeds `ArrayValue._pack`: static arrays concatenate the item packs padded
with default-packed items up to `max_size`; a TAO dynamic array concatenates the
item packs alone; a non-TAO dynamic array first emits the length field
`format(len(self), "0wb")`. -/
def ArrayValue.pack (a : ArrayValue) : Option (List Bool) :=
  match a.type.mode with
  | .static => do
      let packs ← packItems a.type.value_bitlen a.items
      let pads := List.replicate (a.type.max_size - a.items.length)
        (List.replicate a.type.value_bitlen false)
      some (packs ++ pads.flatten)
  | .dynamic =>
      if a.tao then do
        let packs ← packItems a.type.value_bitlen a.items
        some packs
      else do
        let packs ← packItems a.type.value_bitlen a.items
        some (natToBinStr (countWidth a.type.max_size) a.items.length ++ packs)

/-- Embeds `ArrayValue._unpack`: static arrays unpack exactly `max_size` items;
a TAO dynamic array repeatedly unpacks items while at least one byte of stream
remains and then discards the remainder (`stream = ""`); a non-TAO dynamic array
reads the length field (`int(stream[0:w], 2)`, a ValueError on an empty stream)
and then unpacks that many items, leaving the rest of the stream in place. -/
def ArrayValue.unpack (a : ArrayValue) (stream : List Bool) :
    Option (ArrayValue × List Bool) :=
  match a.type.mode with
  | .static => do
      let (items, rest) ← unpackElements a.type.value_bitlen a.type.max_size stream
      some ({ a with items := items }, rest)
  | .dynamic =>
      if a.tao then do
        let (items, _rest) ← unpackElementsTao a.type.value_bitlen (stream.length + 1) stream
        some ({ a with items := items }, [])
      else
        if stream = [] then none
        else do
          let count := bitsToNat (stream.take (countWidth a.type.max_size))
          let (items, rest) ← unpackElements a.type.value_bitlen count
            (stream.drop (countWidth a.type.max_size))
          some ({ a with items := items }, rest)

lemma elementPack_isSome (bitlen : Nat) (bits : List Bool) (h : bits.length = bitlen) :
    ∃ out, elementPack bitlen bits = some out := by
  unfold elementPack
  by_cases hb : bits = []
  · simp [hb]
  · simp only [hb, if_pos, ne_eq, not_false_iff, if_true]
    unfold le_from_be_bits
    rw [if_neg (by omega)]
    exact ⟨_, rfl⟩

lemma packItems_isSome (bitlen : Nat) (items : List (List Bool))
    (h : ∀ b ∈ items, b.length = bitlen) :
    ∃ l, packItems bitlen items = some l := by
  induction items with
  | nil => exact ⟨[], rfl⟩
  | cons b rest ih =>
      obtain ⟨out, hout⟩ := elementPack_isSome bitlen b (h b (by simp))
      obtain ⟨l, hl⟩ := ih (fun x hx => h x (by simp [hx]))
      exact ⟨out ++ l, by simp [packItems, hout, hl]⟩

lemma unpackElements_spec (bitlen : Nat) :
    ∀ (count : Nat) (stream : List Bool), count * bitlen ≤ stream.length →
      ∃ items, unpackElements bitlen count stream
          = some (items, stream.drop (count * bitlen)) ∧ items.length = count := by
  intro count
  induction count with
  | zero => intro stream _; exact ⟨[], by simp [unpackElements], rfl⟩
  | succ count ih =>
      intro stream hlen
      by_cases hz : bitlen = 0
      · subst hz
        obtain ⟨items, hitems, hcount⟩ := ih stream (by omega)
        refine ⟨[] :: items, ?_, by simp [hcount]⟩
        simp [unpackElements, elementUnpack, hitems]
      · rw [Nat.succ_mul] at hlen
        have hge : bitlen ≤ stream.length := by omega
        obtain ⟨items, hitems, hcount⟩ := ih (stream.drop bitlen) (by
          rw [List.length_drop]
          omega)
        have hbe : be_from_le_bits stream bitlen
            = some ((chunksOfEight (stream.take bitlen)).reverse.flatten) := by
          unfold be_from_le_bits
          rw [if_neg (by omega)]
        have hel : elementUnpack bitlen stream
            = some ((chunksOfEight (stream.take bitlen)).reverse.flatten,
                stream.drop bitlen) := by
          unfold elementUnpack
          rw [if_pos hz, hbe]
        have hAB : List.drop (count * bitlen) (List.drop bitlen stream)
            = List.drop ((count + 1) * bitlen) stream := by
          rw [List.drop_drop]
          congr 1
          ring
        refine ⟨(chunksOfEight (stream.take bitlen)).reverse.flatten :: items,
          ?_, by simp [hcount]⟩
        rw [hAB] at hitems
        unfold unpackElements
        simp only [hel, hitems, Option.bind_eq_bind, Option.some_bind]

/-- C8: for every dynamic array value whose element type has bit width strictly
below eight (including one-bit elements), tail-array optimization is disabled
regardless of the TAO flag passed by the enclosing context: the constructed
array has `_tao = False`; packing emits the length field
`format(len(items), "0wb")` followed by the item packs; unpacking reads the
length field and consumes exactly `w + count * bitlen` bits determined by that
prefix, never running to the end of the stream. -/
theorem tao_disabled_below_eight_bits
    (max_size value_bitlen : Nat) (tao_arg : Bool) (items : List (List Bool))
    (stream : List Bool)
    (hbit : value_bitlen < 8)
    (hitems : ∀ b ∈ items, b.length = value_bitlen)
    (hne : stream ≠ [])
    (hstream : countWidth max_size
        + bitsToNat (stream.take (countWidth max_size)) * value_bitlen
      ≤ stream.length) :
    (ArrayValue.init ⟨.dynamic, max_size, value_bitlen⟩ tao_arg).tao = false ∧
    (∃ elementBits,
      ArrayValue.pack { ArrayValue.init ⟨.dynamic, max_size, value_bitlen⟩ tao_arg with
          items := items }
        = some (natToBinStr (countWidth max_size) items.length ++ elementBits)) ∧
    (∃ items',
      ArrayValue.unpack (ArrayValue.init ⟨.dynamic, max_size, value_bitlen⟩ tao_arg) stream
        = some ({ ArrayValue.init ⟨.dynamic, max_size, value_bitlen⟩ tao_arg with
              items := items' },
            stream.drop (countWidth max_size
              + bitsToNat (stream.take (countWidth max_size)) * value_bitlen)) ∧
        items'.length = bitsToNat (stream.take (countWidth max_size))) := by
  have hinit : ArrayValue.init ⟨.dynamic, max_size, value_bitlen⟩ tao_arg
      = ⟨⟨.dynamic, max_size, value_bitlen⟩, false, []⟩ := by
    have hb : ¬ 8 ≤ (⟨.dynamic, max_size, value_bitlen⟩ : ArrayType).value_bitlen := by
      show ¬ 8 ≤ value_bitlen
      omega
    unfold ArrayValue.init
    rw [if_neg hb]
  refine ⟨by rw [hinit], ?_, ?_⟩
  · obtain ⟨l, hl⟩ := packItems_isSome value_bitlen items hitems
    refine ⟨l, ?_⟩
    rw [hinit]
    show ArrayValue.pack ⟨⟨.dynamic, max_size, value_bitlen⟩, false, items⟩ = _
    unfold ArrayValue.pack
    simp [hl]
  · obtain ⟨items', hun, hlen⟩ := unpackElements_spec value_bitlen
      (bitsToNat (stream.take (countWidth max_size)))
      (stream.drop (countWidth max_size))
      (by rw [List.length_drop]; omega)
    refine ⟨items', ?_, hlen⟩
    rw [hinit]
    show ArrayValue.unpack ⟨⟨.dynamic, max_size, value_bitlen⟩, false, []⟩ stream
      = some (⟨⟨.dynamic, max_size, value_bitlen⟩, false, items'⟩, _)
    unfold ArrayValue.unpack
    simp only [Bool.false_eq_true, if_false, if_neg hne, hun, Option.bind_eq_bind,
      Option.some_bind]
    rw [List.drop_drop]

/-- Witness for C8: the theorem applied to a concrete one-bit-element dynamic
array with the TAO flag requested by the context: max size 4 (length field of
two bits), two items, and a six-bit stream whose length field reads 2, so
unpacking consumes 2 + 2 bits and leaves two bits. -/
theorem tao_disabled_below_eight_bits_witness :
    (ArrayValue.init ⟨.dynamic, 4, 1⟩ true).tao = false ∧
    (∃ elementBits,
      ArrayValue.pack { ArrayValue.init ⟨.dynamic, 4, 1⟩ true with
          items := [[true], [false]] }
        = some (natToBinStr (countWidth 4) 2 ++ elementBits)) ∧
    (∃ items',
      ArrayValue.unpack (ArrayValue.init ⟨.dynamic, 4, 1⟩ true)
          [true, false, true, true, false, true]
        = some ({ ArrayValue.init ⟨.dynamic, 4, 1⟩ true with items := items' },
            [true, false, true, true, false, true].drop
              (countWidth 4 + bitsToNat ([true, false, true, true, false, true].take
                (countWidth 4)) * 1)) ∧
        items'.length
          = bitsToNat ([true, false, true, true, false, true].take (countWidth 4))) := by
  have hcw : countWidth 4 = 2 := by simp [countWidth, Nat.clog]
  exact tao_disabled_below_eight_bits 4 1 true [[true], [false]]
    [true, false, true, true, false, true]
    (by omega) (by decide) (by decide) (by rw [hcw]; decide)

/-! ## Frame and transfer layer (transport.py): fragmentation and reassembly -/

/-- Or of a high-aligned block and a small value is their sum; the basic
disjoint-bit-field composition fact used to evaluate the 29-bit identifier. -/
lemma shiftedOrEqAdd : ∀ (n a b : Nat), b < 2 ^ n → (2 ^ n * a) ||| b = 2 ^ n * a + b := by
  intro n
  induction n with
  | zero => intro a b hb; interval_cases b; simp
  | succ n ih =>
      intro a b hb
      have hpow : 2 ^ (n + 1) = 2 * 2 ^ n := by ring
      have hpa : 2 ^ (n + 1) * a = 2 * (2 ^ n * a) := by ring
      have hbodd : (Nat.bodd b).toNat + 2 * Nat.div2 b = b := Nat.bodd_add_div2 b
      have htn : (Nat.bodd b).toNat ≤ 1 := Bool.toNat_le (Nat.bodd b)
      have hdv : Nat.div2 b = b / 2 := Nat.div2_val b
      have hlt : Nat.div2 b < 2 ^ n := by omega
      have h2 : 2 ^ (n + 1) * a = Nat.bit false (2 ^ n * a) := by
        rw [Nat.bit_val]; simp; ring
      calc (2 ^ (n + 1) * a) ||| b
          = Nat.bit false (2 ^ n * a) ||| Nat.bit (Nat.bodd b) (Nat.div2 b) := by
            rw [← h2, Nat.bit_decomp]
        _ = Nat.bit (false || Nat.bodd b) ((2 ^ n * a) ||| Nat.div2 b) := Nat.lor_bit _ _ _ _
        _ = Nat.bit (Nat.bodd b) (2 ^ n * a + Nat.div2 b) := by rw [ih a _ hlt, Bool.false_or]
        _ = 2 ^ (n + 1) * a + b := by rw [Nat.bit_val]; omega

/-- Block-sum form of `shiftedOrEqAdd`. -/
lemma orEqAddOfMod (n a b : Nat) (ha : a % 2 ^ n = 0) (hb : b < 2 ^ n) :
    a ||| b = a + b := by
  obtain ⟨c, hc⟩ := Nat.dvd_of_mod_eq_zero ha
  subst hc
  exact shiftedOrEqAdd n c b hb

/-- Or of a value `hi + lo` (high bits above `2 ^ m`, low bits below `2 ^ n`)
with a middle-aligned block `mid` living in `[2 ^ n, 2 ^ m)`. -/
lemma orMiddleBlock (n m hi lo mid : Nat) (hnm : n ≤ m)
    (hlo : lo < 2 ^ n) (hmidal : mid % 2 ^ n = 0) (hmid : mid < 2 ^ m)
    (hhi : hi % 2 ^ m = 0) :
    (hi + lo) ||| mid = hi + (mid + lo) := by
  have hlom : lo < 2 ^ m := lt_of_lt_of_le hlo (Nat.pow_le_pow_right (by omega) hnm)
  have hml : mid + lo < 2 ^ m := by
    have hdvd : 2 ^ n ∣ mid := Nat.dvd_of_mod_eq_zero hmidal
    have hpow : 2 ^ n ∣ 2 ^ m := pow_dvd_pow 2 hnm
    rcases hdvd with ⟨k, hk⟩
    rcases hpow with ⟨K, hK⟩
    rw [hK] at hmid ⊢
    rw [hk] at hmid ⊢
    have hk2 : k < K := by
      by_contra hkk
      push_neg at hkk
      exact absurd hmid (by
        have := Nat.mul_le_mul_left (2 ^ n) hkk
        omega)
    have hk3 := Nat.mul_le_mul_left (2 ^ n) (by omega : k + 1 ≤ K)
    rw [Nat.mul_succ] at hk3
    have hp : 0 < 2 ^ n := Nat.pos_pow_of_pos n (by omega)
    omega
  have h1 : hi + lo = hi ||| lo := (orEqAddOfMod m hi lo hhi hlom).symm
  rw [h1, Nat.lor_assoc, Nat.lor_comm lo mid, orEqAddOfMod n mid lo hmidal hlo,
    orEqAddOfMod m hi (mid + lo) hhi hml]

/-- Single-bit mask in arithmetic form. -/
lemma andBitEq (v k : Nat) : v &&& 2 ^ k = v / 2 ^ k % 2 * 2 ^ k := by
  rw [Nat.and_two_pow]
  congr 1
  rw [Nat.testBit_to_div_mod]
  rcases Nat.mod_two_eq_zero_or_one (v / 2 ^ k) with h | h <;> simp [h]

/-- Power-of-two mask in arithmetic form. -/
lemma andMaskEq (v k : Nat) : v &&& (2 ^ k - 1) = v % 2 ^ k :=
  Nat.and_pow_two_sub_one_eq_mod v k

/-- Modelled from the spec: `crc16_from_bytes` of uavcan/dsdl/common.py (that
file is not under src/): CRC-16-CCITT with polynomial 0x1021, initial value the
supplied seed, no reflection, no final XOR, bytes fed MSB-first. -/
def crc16UpdateBit (crc : Nat) : Nat :=
  if crc &&& 0x8000 ≠ 0 then ((crc <<< 1) ^^^ 0x1021) &&& 0xFFFF
  else (crc <<< 1) &&& 0xFFFF

/-- One byte fed into the CRC-16: xor into the high byte, then eight bit steps. -/
def crc16UpdateByte (crc byte : Nat) : Nat :=
  crc16UpdateBit^[8] (crc ^^^ ((byte &&& 0xFF) <<< 8))

/-- Modelled from the spec: the full `crc16_from_bytes(data, initial)`. -/
def crc16_from_bytes (data : List Nat) (initial : Nat) : Nat :=
  data.foldl crc16UpdateByte initial

lemma crc16UpdateBit_lt (crc : Nat) : crc16UpdateBit crc < 65536 := by
  unfold crc16UpdateBit
  split <;> exact lt_of_le_of_lt Nat.and_le_right (by norm_num)

lemma crc16_iter_lt (k : Nat) : ∀ c : Nat, crc16UpdateBit^[k + 1] c < 65536 := by
  induction k with
  | zero => intro c; simpa using crc16UpdateBit_lt c
  | succ k ih =>
      intro c
      rw [Function.iterate_succ_apply]
      exact ih _

lemma crc16UpdateByte_lt (crc byte : Nat) : crc16UpdateByte crc byte < 65536 := by
  unfold crc16UpdateByte
  exact crc16_iter_lt 7 _

/-- Embeds `Transfer` of transport.py on the sending side: the constructor
fields together with the payload bytes, data type id and data type CRC seed
that `__init__` derives from the payload object (the value-tree packing that
produces them belongs to the serialization engine, outside this layer). -/
structure Transfer where
  transfer_priority : Nat
  transfer_id : Nat
  source_node_id : Nat
  dest_node_id : Option Nat
  request_not_response : Bool
  service_not_message : Bool
  discriminator : Option Nat
  data_type_id : Nat
  data_type_crc : Nat
  payload : List Nat
deriving DecidableEq, Repr

/-- Embeds the `Transfer.message_id` property getter: priority, the service
flag and the source node id in the common bits; a service transfer adds the
8-bit type id, the request flag and the destination; an anonymous message
(source 0) adds the discriminator and the low two bits of the type id; a
regular message adds the 16-bit type id.  The `getD 0` reads model the
assert-guarded accesses of the source (`assert 1 <= dest_node_id`,
`assert discriminator is not None`). -/
def Transfer.message_id (t : Transfer) : Nat :=
  let common := ((t.transfer_priority &&& 0x1F) <<< 24) |||
    ((if t.service_not_message then 1 else 0) <<< 7) ||| t.source_node_id
  if t.service_not_message then
    ((common ||| (t.data_type_id <<< 16)) |||
      ((if t.request_not_response then 1 else 0) <<< 15)) |||
      ((t.dest_node_id.getD 0) <<< 8)
  else if t.source_node_id = 0 then
    (common ||| ((t.discriminator.getD 0) <<< 10)) ||| ((t.data_type_id &&& 0x3) <<< 8)
  else
    common ||| (t.data_type_id <<< 8)

/-- The fields assigned by the `Transfer.message_id` property setter, the parse
of a received 29-bit identifier performed at the start of `from_frames`.
Fields the setter does not touch keep the values of a fresh `Transfer()`:
destination None, request flag False, discriminator None. -/
structure ParsedId where
  transfer_priority : Nat
  service_not_message : Bool
  source_node_id : Nat
  data_type_id : Nat
  request_not_response : Bool
  dest_node_id : Option Nat
  discriminator : Option Nat
deriving DecidableEq, Repr

/-- Embeds the `Transfer.message_id` setter. -/
def parseMessageId (value : Nat) : ParsedId :=
  let transfer_priority := (value >>> 24) &&& 0x1F
  let service_not_message := value &&& 0x80 != 0
  let source_node_id := value &&& 0x7F
  if service_not_message then
    { transfer_priority := transfer_priority
      service_not_message := service_not_message
      source_node_id := source_node_id
      data_type_id := (value >>> 16) &&& 0xFF
      request_not_response := value &&& 0x8000 != 0
      dest_node_id := some ((value >>> 8) &&& 0x7F)
      discriminator := none }
  else if source_node_id = 0 then
    { transfer_priority := transfer_priority
      service_not_message := service_not_message
      source_node_id := source_node_id
      data_type_id := (value >>> 8) &&& 0x3
      request_not_response := false
      dest_node_id := none
      discriminator := some ((value >>> 10) &&& 0x3FFF) }
  else
    { transfer_priority := transfer_priority
      service_not_message := service_not_message
      source_node_id := source_node_id
      data_type_id := (value >>> 8) &&& 0xFFFF
      request_not_response := false
      dest_node_id := none
      discriminator := none }

/-- The loop of `Transfer.to_frames`: `nframes` counts the frames already
emitted (`len(out_frames)`), `prev_tail` carries the tail byte of the previous
iteration (seeded with 0x20 so the toggle of the first frame is clear), and
`remaining` is the remaining payload.  Each frame carries up to seven payload
bytes and the tail byte; the loop stops when at most seven bytes remain.  The
tail-byte computation of the loop body is extracted into `toFramesTail`:
start-of-transfer when no frame was emitted yet, end-of-transfer when at most
seven bytes remain, the previous toggle flipped, and the 5-bit transfer id. -/
def toFramesTail (tid nframes prev_tail remaining_length : Nat) : Nat :=
  (if nframes = 0 then 0x80 else 0) |||
    (if remaining_length ≤ 7 then 0x40 else 0) |||
    ((prev_tail ^^^ 0x20) &&& 0x20) |||
    (tid &&& 0x1F)

def toFramesLoop (mid tid : Nat) (nframes prev_tail : Nat) (remaining : List Nat) :
    List Frame :=
  let tail := toFramesTail tid nframes prev_tail remaining.length
  let fr : Frame := ⟨mid, remaining.take 7 ++ [tail]⟩
  if remaining.length ≤ 7 then [fr]
  else fr :: toFramesLoop mid tid (nframes + 1) tail (remaining.drop 7)
termination_by remaining.length
decreasing_by simp [List.length_drop]; omega

/-- The payload actually fragmented by `Transfer.to_frames`: the transfer CRC
(two bytes, little-endian, seeded with the data type CRC) is prepended when the
payload exceeds seven bytes. -/
def Transfer.effective_payload (t : Transfer) : List Nat :=
  if 7 < t.payload.length then
    let crc := crc16_from_bytes t.payload t.data_type_crc
    [crc &&& 0xFF, crc >>> 8] ++ t.payload
  else t.payload

/-- Embeds `Transfer.to_frames`. -/
def Transfer.to_frames (t : Transfer) : List Frame :=
  toFramesLoop t.message_id t.transfer_id 0 0x20 t.effective_payload

/-- The two failure modes of the embedded `from_frames`: `transferError` for a
raised `TransferError`, `indexError` for an out-of-range byte access (possible
only on frames with too few bytes, which the reassembly path never delivers). -/
inductive FrameParseError
  | transferError
  | indexError
deriving DecidableEq, Repr

/-- The validation loop of `Transfer.from_frames`: walk the frames carrying the
frame index, the expected toggle (0 on entry, xor 0x20 after every frame) and
the expected 5-bit transfer id; `total` is the total frame count.  The checks
and their order follow the source elif chain. -/
def checkTails (total expected_transfer_id : Nat) :
    Nat → Nat → List Frame → Except FrameParseError Unit
  | _, _, [] => .ok ()
  | idx, expected_toggle, f :: rest =>
      match f.bytes.getLast? with
      | none => .error .indexError
      | some tail =>
          if tail &&& 0x1F ≠ expected_transfer_id then .error .transferError
          else if idx = 0 ∧ tail &&& 0x80 = 0 then .error .transferError
          else if 0 < idx ∧ tail &&& 0x80 ≠ 0 then .error .transferError
          else if idx = total - 1 ∧ tail &&& 0x40 = 0 then .error .transferError
          else if idx < total - 1 ∧ tail &&& 0x40 ≠ 0 then .error .transferError
          else if tail &&& 0x20 ≠ expected_toggle then .error .transferError
          else checkTails total expected_transfer_id (idx + 1) (expected_toggle ^^^ 0x20) rest

/-- Embeds `dsdl.CompoundType.kind`. -/
inductive CompoundKind
  | message
  | service
deriving DecidableEq, Repr

/-- The slice of a registered compound type that `from_frames` reads: its
default data type id and its base CRC (the data type signature field is not
modelled; no claim concerns it). -/
structure DataTypeInfo where
  default_dtid : Nat
  base_crc : Nat
deriving DecidableEq, Repr

/-- Embeds `Transfer.from_frames` applied to a fresh `Transfer()` as the
receive path does.  The `registry` parameter stands for the global
`uavcan.DATATYPES` dictionary keyed by `(data_type_id, kind)`.  The final step
of the source — constructing the value tree and unpacking the payload bits into
it — belongs to the serialization engine; the returned transfer carries the
validated payload bytes that step would unpack.  The timestamp initialization
is not modelled (`Frame` carries no timestamps here). -/
def Transfer.from_frames (registry : Nat → CompoundKind → Option DataTypeInfo)
    (frames : List Frame) : Except FrameParseError Transfer :=
  match frames with
  | [] => .error .indexError
  | f0 :: _ =>
      match f0.bytes.getLast? with
      | none => .error .indexError
      | some tail0 =>
          let expected_transfer_id := tail0 &&& 0x1F
          match checkTails frames.length expected_transfer_id 0 0 frames with
          | .error e => .error e
          | .ok () =>
              let parsed := parseMessageId f0.message_id
              let payload_bytes := (frames.map (fun f => f.bytes.dropLast)).flatten
              let kind := if parsed.service_not_message then CompoundKind.service
                else CompoundKind.message
              match registry parsed.data_type_id kind with
              | none => .error .transferError
              | some datatype =>
                  if 1 < frames.length then
                    match payload_bytes[0]?, payload_bytes[1]? with
                    | some b0, some b1 =>
                        let transfer_crc := b0 + (b1 <<< 8)
                        let pb := payload_bytes.drop 2
                        if crc16_from_bytes pb datatype.base_crc ≠ transfer_crc then
                          .error .transferError
                        else
                          .ok { transfer_priority := parsed.transfer_priority
                                transfer_id := expected_transfer_id
                                source_node_id := parsed.source_node_id
                                dest_node_id := parsed.dest_node_id
                                request_not_response := parsed.request_not_response
                                service_not_message := parsed.service_not_message
                                discriminator := parsed.discriminator
                                data_type_id := datatype.default_dtid
                                data_type_crc := datatype.base_crc
                                payload := pb }
                    | _, _ => .error .indexError
                  else
                    .ok { transfer_priority := parsed.transfer_priority
                          transfer_id := expected_transfer_id
                          source_node_id := parsed.source_node_id
                          dest_node_id := parsed.dest_node_id
                          request_not_response := parsed.request_not_response
                          service_not_message := parsed.service_not_message
                          discriminator := parsed.discriminator
                          data_type_id := datatype.default_dtid
                          data_type_crc := datatype.base_crc
                          payload := payload_bytes }

lemma toFramesLoop_single (mid tid n pt : Nat) (rem : List Nat) (h : rem.length ≤ 7) :
    toFramesLoop mid tid n pt rem
      = [⟨mid, rem.take 7 ++ [toFramesTail tid n pt rem.length]⟩] := by
  rw [toFramesLoop]
  simp only [if_pos h]

lemma toFramesLoop_step (mid tid n pt : Nat) (rem : List Nat) (h : ¬ rem.length ≤ 7) :
    toFramesLoop mid tid n pt rem
      = ⟨mid, rem.take 7 ++ [toFramesTail tid n pt rem.length]⟩ ::
        toFramesLoop mid tid (n + 1) (toFramesTail tid n pt rem.length) (rem.drop 7) := by
  rw [toFramesLoop]
  simp only [if_neg h]

/-- The toggle of the next emitted tail byte: the previous tail byte is xored
with 0x20 and masked. -/
lemma toggleStep (pt n : Nat) (hpt : pt &&& 0x20 = 0x20 * ((n + 1) % 2)) :
    (pt ^^^ 0x20) &&& 0x20 = 0x20 * (n % 2) := by
  have hd : (pt ^^^ 0x20) &&& 0x20 = (pt &&& 0x20) ^^^ (0x20 &&& 0x20) :=
    Nat.and_xor_distrib_right
  rw [hd, hpt]
  rcases Nat.mod_two_eq_zero_or_one n with h | h
  · have h1 : (n + 1) % 2 = 1 := by omega
    rw [h, h1]
    decide
  · have h1 : (n + 1) % 2 = 0 := by omega
    rw [h, h1]
    decide

/-- Mask extraction over a tail byte assembled from its four disjoint parts. -/
lemma tailMaskFacts (s e t g : Nat) (hs : s = 0 ∨ s = 0x80) (he : e = 0 ∨ e = 0x40)
    (ht : t = 0 ∨ t = 0x20) (hg : g < 32) :
    (s ||| e ||| t ||| g) &&& 0x80 = s ∧
    (s ||| e ||| t ||| g) &&& 0x40 = e ∧
    (s ||| e ||| t ||| g) &&& 0x20 = t ∧
    (s ||| e ||| t ||| g) &&& 0x1F = g ∧
    (s ||| e ||| t ||| g) < 256 := by
  rcases hs with rfl | rfl <;> rcases he with rfl | rfl <;> rcases ht with rfl | rfl <;>
    · revert hg
      revert g
      decide

/-- The four bit groups of a freshly generated tail byte, under the toggle
invariant carried by the loop. -/
lemma toFramesTail_spec (tid n pt L : Nat)
    (hpt : pt &&& 0x20 = 0x20 * ((n + 1) % 2)) :
    toFramesTail tid n pt L &&& 0x80 = (if n = 0 then 0x80 else 0) ∧
    toFramesTail tid n pt L &&& 0x40 = (if L ≤ 7 then 0x40 else 0) ∧
    toFramesTail tid n pt L &&& 0x20 = 0x20 * (n % 2) ∧
    toFramesTail tid n pt L &&& 0x1F = tid % 32 ∧
    toFramesTail tid n pt L < 256 := by
  have htog := toggleStep pt n hpt
  have hg : tid &&& 0x1F = tid % 32 := by
    have h := andMaskEq tid 5
    norm_num at h
    exact h
  unfold toFramesTail
  rw [htog, hg]
  exact tailMaskFacts (if n = 0 then 0x80 else 0) (if L ≤ 7 then 0x40 else 0)
    (0x20 * (n % 2)) (tid % 32)
    (by split <;> simp) (by split <;> simp)
    (by rcases Nat.mod_two_eq_zero_or_one n with h | h <;> simp [h])
    (by omega)

/-- Full characterization of the frame sequence produced by the `to_frames`
loop: one frame per seven-byte chunk (at least one frame), each frame carrying
the chunk plus a tail byte whose bit groups are start-of-transfer exactly on
the first frame overall, end-of-transfer exactly on the last, the toggle equal
to the frame index modulo two, and the transfer id modulo 32 in the low five
bits. -/
lemma toFramesLoop_spec (mid tid : Nat) :
    ∀ (N : Nat) (rem : List Nat), rem.length ≤ N → ∀ (n pt : Nat),
      pt &&& 0x20 = 0x20 * ((n + 1) % 2) →
      (toFramesLoop mid tid n pt rem).length = (rem.length - 1) / 7 + 1 ∧
      ∀ (j : Nat) (hj : j < (toFramesLoop mid tid n pt rem).length),
        ∃ tail,
          (toFramesLoop mid tid n pt rem).get ⟨j, hj⟩
            = ⟨mid, (rem.drop (7 * j)).take 7 ++ [tail]⟩ ∧
          tail &&& 0x80 = (if n + j = 0 then 0x80 else 0) ∧
          tail &&& 0x40 = (if rem.length ≤ 7 * j + 7 then 0x40 else 0) ∧
          tail &&& 0x20 = 0x20 * ((n + j) % 2) ∧
          tail &&& 0x1F = tid % 32 ∧ tail < 256 := by
  intro N
  induction N with
  | zero =>
      intro rem hN n pt hpt
      have hle : rem.length ≤ 7 := by omega
      rw [toFramesLoop_single mid tid n pt rem hle]
      obtain ⟨h80, h40, h20, h1F, h256⟩ := toFramesTail_spec tid n pt rem.length hpt
      refine ⟨by simp; omega, ?_⟩
      intro j hj
      simp only [List.length_singleton] at hj
      have hj0 : j = 0 := by omega
      subst hj0
      refine ⟨toFramesTail tid n pt rem.length, by simp, ?_, ?_, ?_, h1F, h256⟩
      · simpa using h80
      · simpa [hle] using h40
      · simpa using h20
  | succ N ih =>
      intro rem hN n pt hpt
      by_cases hle : rem.length ≤ 7
      · rw [toFramesLoop_single mid tid n pt rem hle]
        obtain ⟨h80, h40, h20, h1F, h256⟩ := toFramesTail_spec tid n pt rem.length hpt
        refine ⟨by simp; omega, ?_⟩
        intro j hj
        simp only [List.length_singleton] at hj
        have hj0 : j = 0 := by omega
        subst hj0
        refine ⟨toFramesTail tid n pt rem.length, by simp, ?_, ?_, ?_, h1F, h256⟩
        · simpa using h80
        · simpa [hle] using h40
        · simpa using h20
      · rw [toFramesLoop_step mid tid n pt rem hle]
        obtain ⟨h80, h40, h20, h1F, h256⟩ := toFramesTail_spec tid n pt rem.length hpt
        have hpt' : toFramesTail tid n pt rem.length &&& 0x20
            = 0x20 * (((n + 1) + 1) % 2) := by
          rw [h20]
          have : (n + 1 + 1) % 2 = n % 2 := by omega
          rw [this]
        have hdlen : (rem.drop 7).length = rem.length - 7 := List.length_drop 7 rem
        obtain ⟨ihlen, ihget⟩ := ih (rem.drop 7) (by omega) (n + 1)
          (toFramesTail tid n pt rem.length) hpt'
        constructor
        · simp only [List.length_cons, ihlen, hdlen]
          omega
        · intro j hj
          cases j with
          | zero =>
              refine ⟨toFramesTail tid n pt rem.length, by simp, ?_, ?_, ?_, h1F, h256⟩
              · simpa using h80
              · simpa [hle] using h40
              · simpa using h20
          | succ j =>
              have hj' : j < (toFramesLoop mid tid (n + 1)
                  (toFramesTail tid n pt rem.length) (rem.drop 7)).length := by
                simpa using hj
              obtain ⟨tail, hget, t80, t40, t20, t1F, t256⟩ := ihget j hj'
              refine ⟨tail, ?_, ?_, ?_, ?_, t1F, t256⟩
              · have hdd : (rem.drop 7).drop (7 * j) = rem.drop (7 * (j + 1)) := by
                  rw [List.drop_drop]
                  congr 1
                  omega
                simp only [List.get_cons_succ, hget, hdd]
              · rw [t80]
                have : n + 1 + j ≠ 0 := by omega
                have h2 : n + (j + 1) ≠ 0 := by omega
                simp [this, h2]
              · rw [t40, hdlen]
                have hiff : rem.length - 7 ≤ 7 * j + 7 ↔ rem.length ≤ 7 * (j + 1) + 7 := by
                  omega
                by_cases hc : rem.length - 7 ≤ 7 * j + 7
                · rw [if_pos hc, if_pos (hiff.mp hc)]
                · rw [if_neg hc, if_neg (fun hcon => hc (hiff.mpr hcon))]
              · rw [t20]
                have : (n + 1 + j) % 2 = (n + (j + 1)) % 2 := by omega
                rw [this]

/-- The payload bytes carried by the generated frames (tail bytes stripped)
concatenate back to the fragmented payload. -/
lemma toFramesLoop_payload (mid tid : Nat) :
    ∀ (N : Nat) (rem : List Nat), rem.length ≤ N → ∀ (n pt : Nat),
      ((toFramesLoop mid tid n pt rem).map (fun f => f.bytes.dropLast)).flatten = rem := by
  intro N
  induction N with
  | zero =>
      intro rem hN n pt
      have hle : rem.length ≤ 7 := by omega
      rw [toFramesLoop_single mid tid n pt rem hle]
      simp [List.dropLast_concat, List.take_of_length_le hle]
  | succ N ih =>
      intro rem hN n pt
      by_cases hle : rem.length ≤ 7
      · rw [toFramesLoop_single mid tid n pt rem hle]
        simp [List.dropLast_concat, List.take_of_length_le hle]
      · rw [toFramesLoop_step mid tid n pt rem hle]
        simp only [List.map_cons, List.flatten_cons]
        rw [ih (rem.drop 7) (by simp [List.length_drop]; omega) (n + 1) _]
        simp [List.dropLast_concat, List.take_append_drop]

/-- C4: `to_frames` cuts the effective payload (the payload, CRC-prefixed by
`effective_payload` exactly when the original payload exceeds seven bytes) into
consecutive seven-byte chunks and emits one frame per chunk — at least one
frame, `(len - 1) / 7 + 1` in total — whose data is the chunk followed by one
tail byte in which start-of-transfer is set on frame 0 only, end-of-transfer on
the last frame only, the toggle bit equals the frame index modulo 2 (the
sequence 0,1,0,1,...), and the low five bits equal the transfer id modulo 32. -/
theorem to_frames_structure (t : Transfer) (i : Nat) (hi : i < t.to_frames.length) :
    t.to_frames.length = (t.effective_payload.length - 1) / 7 + 1 ∧
    ∃ tail,
      t.to_frames.get ⟨i, hi⟩
        = ⟨t.message_id, (t.effective_payload.drop (7 * i)).take 7 ++ [tail]⟩ ∧
      (tail &&& 0x80 ≠ 0 ↔ i = 0) ∧
      (tail &&& 0x40 ≠ 0 ↔ i = t.to_frames.length - 1) ∧
      tail &&& 0x20 = 0x20 * (i % 2) ∧
      tail &&& 0x1F = t.transfer_id % 32 := by
  obtain ⟨hlen, hget⟩ := toFramesLoop_spec t.message_id t.transfer_id
    t.effective_payload.length t.effective_payload (Nat.le_refl _) 0 0x20 (by decide)
  have hlen' : t.to_frames.length = (t.effective_payload.length - 1) / 7 + 1 := hlen
  refine ⟨hlen', ?_⟩
  obtain ⟨tail, hfr, h80, h40, h20, h1F, h256⟩ := hget i hi
  refine ⟨tail, ?_, ?_, ?_, ?_, h1F⟩
  · simpa using hfr
  · rw [h80]
    constructor
    · intro h
      by_contra hi0
      rw [if_neg (by omega)] at h
      exact h rfl
    · intro h
      rw [if_pos (by omega)]
      norm_num
  · rw [h40, hlen']
    have hil : i < (t.effective_payload.length - 1) / 7 + 1 := by
      rw [← hlen']
      exact hi
    constructor
    · intro h
      by_contra hlast
      rw [if_neg (by omega)] at h
      exact h rfl
    · intro h
      rw [if_pos (by omega)]
      norm_num
  · simpa using h20

/-- A concrete transfer for the witness of C4: a three-byte message payload,
priority 16, transfer id 5, source node 42, data type id 341. -/
def c4Transfer : Transfer := ⟨16, 5, 42, none, false, false, none, 341, 0, [1, 2, 3]⟩

lemma c4Transfer_frames_pos : 0 < c4Transfer.to_frames.length := by
  show 0 < (toFramesLoop c4Transfer.message_id c4Transfer.transfer_id 0 0x20
    c4Transfer.effective_payload).length
  rw [toFramesLoop_single _ _ _ _ _ (by decide)]
  simp

/-- Witness for C4: the frame-count formula of the theorem applied to the
concrete single-frame transfer. -/
theorem to_frames_structure_witness :
    c4Transfer.to_frames.length = (c4Transfer.effective_payload.length - 1) / 7 + 1 :=
  (to_frames_structure c4Transfer 0 c4Transfer_frames_pos).1

/-- The tail byte of a frame; 0 for an empty frame (only read under the
hypothesis that every frame has bytes). -/
def Frame.tailByte (f : Frame) : Nat := f.bytes.getLastD 0

/-- The tail-byte discipline of one frame at position `i` of `total` frames
with expected 5-bit transfer id `tid`, as the claim states it: matching
transfer id, start-of-transfer exactly on frame 0, end-of-transfer exactly on
the last frame, and the toggle alternating from 0. -/
def GoodTail (total tid i tail : Nat) : Prop :=
  tail &&& 0x1F = tid ∧
  (i = 0 → tail &&& 0x80 ≠ 0) ∧
  (0 < i → tail &&& 0x80 = 0) ∧
  (i = total - 1 → tail &&& 0x40 ≠ 0) ∧
  (i < total - 1 → tail &&& 0x40 = 0) ∧
  tail &&& 0x20 = 0x20 * (i % 2)

/-- Positional form of the tail-byte discipline over a frame list. -/
def TailsOk (total tid : Nat) : Nat → List Frame → Prop
  | _, [] => True
  | idx, f :: rest => GoodTail total tid idx f.tailByte ∧ TailsOk total tid (idx + 1) rest

lemma checkTails_ok_iff (total tid : Nat) :
    ∀ (fs : List Frame) (idx tog : Nat), (∀ f ∈ fs, f.bytes ≠ []) →
      tog = 0x20 * (idx % 2) →
      (checkTails total tid idx tog fs = .ok () ↔ TailsOk total tid idx fs) := by
  intro fs
  induction fs with
  | nil =>
      intro idx tog _ _
      simp [checkTails, TailsOk]
  | cons f rest ih =>
      intro idx tog hbytes htog
      have hfne : f.bytes ≠ [] := hbytes f (by simp)
      obtain ⟨tail, htail⟩ : ∃ tail, f.bytes.getLast? = some tail := by
        cases hgl : f.bytes.getLast?
        · exact absurd (List.getLast?_eq_none_iff.mp hgl) hfne
        · exact ⟨_, rfl⟩
      have htb : f.tailByte = tail := by
        simp [Frame.tailByte, List.getLastD_eq_getLast?, htail]
      simp only [checkTails, htail, TailsOk, htb]
      by_cases c1 : tail &&& 0x1F ≠ tid
      · simp only [if_pos c1]
        exact ⟨fun h => absurd h (by simp), fun h => absurd h.1.1 c1⟩
      by_cases c2 : idx = 0 ∧ tail &&& 0x80 = 0
      · simp only [if_neg c1, if_pos c2]
        exact ⟨fun h => absurd h (by simp), fun h => absurd (h.1.2.1 c2.1) (by simp [c2.2])⟩
      by_cases c3 : 0 < idx ∧ tail &&& 0x80 ≠ 0
      · simp only [if_neg c1, if_neg c2, if_pos c3]
        exact ⟨fun h => absurd h (by simp), fun h => absurd (h.1.2.2.1 c3.1) c3.2⟩
      by_cases c4 : idx = total - 1 ∧ tail &&& 0x40 = 0
      · simp only [if_neg c1, if_neg c2, if_neg c3, if_pos c4]
        exact ⟨fun h => absurd h (by simp),
          fun h => absurd (h.1.2.2.2.1 c4.1) (by simp [c4.2])⟩
      by_cases c5 : idx < total - 1 ∧ tail &&& 0x40 ≠ 0
      · simp only [if_neg c1, if_neg c2, if_neg c3, if_neg c4, if_pos c5]
        exact ⟨fun h => absurd h (by simp), fun h => absurd (h.1.2.2.2.2.1 c5.1) c5.2⟩
      by_cases c6 : tail &&& 0x20 ≠ tog
      · simp only [if_neg c1, if_neg c2, if_neg c3, if_neg c4, if_neg c5, if_pos c6]
        refine ⟨fun h => absurd h (by simp), fun h => absurd ?_ c6⟩
        rw [h.1.2.2.2.2.2, htog]
      · simp only [if_neg c1, if_neg c2, if_neg c3, if_neg c4, if_neg c5, if_neg c6]
        push_neg at c1 c2 c3 c4 c5 c6
        have hgood : GoodTail total tid idx tail :=
          ⟨c1, c2, c3, c4, c5, by rw [c6, htog]⟩
        rw [ih (idx + 1) (tog ^^^ 0x20) (fun x hx => hbytes x (by simp [hx]))
          (by
            rw [htog]
            rcases Nat.mod_two_eq_zero_or_one idx with h | h
            · have h1 : (idx + 1) % 2 = 1 := by omega
              rw [h, h1]
              decide
            · have h1 : (idx + 1) % 2 = 0 := by omega
              rw [h, h1]
              decide)]
        simp [hgood]

lemma tailsOk_iff_forall (total tid : Nat) :
    ∀ (fs : List Frame) (idx : Nat),
      TailsOk total tid idx fs ↔
        ∀ (j : Nat) (hj : j < fs.length),
          GoodTail total tid (idx + j) (fs.get ⟨j, hj⟩).tailByte := by
  intro fs
  induction fs with
  | nil => intro idx; simp [TailsOk]
  | cons f rest ih =>
      intro idx
      simp only [TailsOk]
      rw [ih (idx + 1)]
      constructor
      · rintro ⟨h0, hrest⟩ j hj
        cases j with
        | zero => simpa using h0
        | succ j =>
            have h := hrest j (by simpa using hj)
            have harith : idx + 1 + j = idx + (j + 1) := by omega
            rw [harith] at h
            simpa using h
      · intro h
        refine ⟨by simpa using h 0 (by simp), fun j hj => ?_⟩
        have hh := h (j + 1) (by simpa using hj)
        have harith : idx + (j + 1) = idx + 1 + j := by omega
        rw [harith] at hh
        simpa using hh

lemma checkTails_ok_or_transferError (total tid : Nat) :
    ∀ (fs : List Frame) (idx tog : Nat), (∀ f ∈ fs, f.bytes ≠ []) →
      checkTails total tid idx tog fs = .ok () ∨
      checkTails total tid idx tog fs = .error .transferError := by
  intro fs
  induction fs with
  | nil => intro idx tog _; left; rfl
  | cons f rest ih =>
      intro idx tog hbytes
      have hfne : f.bytes ≠ [] := hbytes f (by simp)
      obtain ⟨tail, htail⟩ : ∃ tail, f.bytes.getLast? = some tail := by
        cases hgl : f.bytes.getLast?
        · exact absurd (List.getLast?_eq_none_iff.mp hgl) hfne
        · exact ⟨_, rfl⟩
      simp only [checkTails, htail]
      split_ifs <;> first
        | (right; rfl)
        | exact ih (idx + 1) (tog ^^^ 0x20) (fun x hx => hbytes x (by simp [hx]))

/-- Arithmetic value of the identifier built for a regular message. -/
lemma message_id_message_arith (p src dtid : Nat) (hp : p < 32) (hsrc : src ≤ 127)
    (hdt : dtid ≤ 65535) :
    (((p &&& 0x1F) <<< 24) ||| ((0 : Nat) <<< 7) ||| src) ||| (dtid <<< 8)
      = p * 2 ^ 24 + dtid * 2 ^ 8 + src := by
  have hp' : p &&& 0x1F = p := by
    have h := andMaskEq p 5
    norm_num at h
    omega
  rw [hp', Nat.shiftLeft_eq, Nat.shiftLeft_eq, Nat.shiftLeft_eq]
  have e1 : (p * 2 ^ 24) ||| (0 * 2 ^ 7) = p * 2 ^ 24 := by norm_num
  rw [e1]
  have e2 : (p * 2 ^ 24) ||| src = p * 2 ^ 24 + src :=
    orEqAddOfMod 24 _ _ (Nat.mul_mod_left p (2 ^ 24)) (by omega)
  rw [e2]
  have e3 : (p * 2 ^ 24 + src) ||| (dtid * 2 ^ 8) = p * 2 ^ 24 + (dtid * 2 ^ 8 + src) :=
    orMiddleBlock 8 24 (p * 2 ^ 24) src (dtid * 2 ^ 8) (by omega) (by omega)
      (Nat.mul_mod_left dtid (2 ^ 8)) (by omega) (Nat.mul_mod_left p (2 ^ 24))
  rw [e3]
  omega

/-- Arithmetic value of the identifier built for a service transfer. -/
lemma message_id_service_arith (p src dtid rnr dest : Nat) (hp : p < 32) (hsrc : src ≤ 127)
    (hdt : dtid ≤ 255) (hrnr : rnr ≤ 1) (hdest : dest ≤ 127) :
    (((((p &&& 0x1F) <<< 24) ||| ((1 : Nat) <<< 7) ||| src) ||| (dtid <<< 16)) |||
        (rnr <<< 15)) ||| (dest <<< 8)
      = p * 2 ^ 24 + dtid * 2 ^ 16 + rnr * 2 ^ 15 + dest * 2 ^ 8 + 2 ^ 7 + src := by
  have hp' : p &&& 0x1F = p := by
    have h := andMaskEq p 5
    norm_num at h
    omega
  rw [hp', Nat.shiftLeft_eq, Nat.shiftLeft_eq, Nat.shiftLeft_eq, Nat.shiftLeft_eq,
    Nat.shiftLeft_eq]
  have e1 : (p * 2 ^ 24) ||| (1 * 2 ^ 7) = p * 2 ^ 24 + 1 * 2 ^ 7 :=
    orEqAddOfMod 8 _ _ (by omega) (by omega)
  rw [e1]
  have e2 : (p * 2 ^ 24 + 1 * 2 ^ 7) ||| src = p * 2 ^ 24 + 1 * 2 ^ 7 + src :=
    orEqAddOfMod 7 _ _ (by omega) (by omega)
  rw [e2]
  have a1 : p * 2 ^ 24 + 1 * 2 ^ 7 + src = p * 2 ^ 24 + (1 * 2 ^ 7 + src) := by omega
  rw [a1]
  have e3 : (p * 2 ^ 24 + (1 * 2 ^ 7 + src)) ||| (dtid * 2 ^ 16)
      = p * 2 ^ 24 + (dtid * 2 ^ 16 + (1 * 2 ^ 7 + src)) :=
    orMiddleBlock 8 24 _ _ _ (by omega) (by omega) (by omega)
      (by omega) (by omega)
  rw [e3]
  have a2 : p * 2 ^ 24 + (dtid * 2 ^ 16 + (1 * 2 ^ 7 + src))
      = (p * 2 ^ 24 + dtid * 2 ^ 16) + (1 * 2 ^ 7 + src) := by omega
  rw [a2]
  have e4 : ((p * 2 ^ 24 + dtid * 2 ^ 16) + (1 * 2 ^ 7 + src)) ||| (rnr * 2 ^ 15)
      = (p * 2 ^ 24 + dtid * 2 ^ 16) + (rnr * 2 ^ 15 + (1 * 2 ^ 7 + src)) :=
    orMiddleBlock 15 16 _ _ _ (by omega) (by omega) (by omega)
      (by omega) (by omega)
  rw [e4]
  have a3 : (p * 2 ^ 24 + dtid * 2 ^ 16) + (rnr * 2 ^ 15 + (1 * 2 ^ 7 + src))
      = (p * 2 ^ 24 + dtid * 2 ^ 16 + rnr * 2 ^ 15) + (1 * 2 ^ 7 + src) := by omega
  rw [a3]
  have e5 : ((p * 2 ^ 24 + dtid * 2 ^ 16 + rnr * 2 ^ 15) + (1 * 2 ^ 7 + src)) |||
        (dest * 2 ^ 8)
      = (p * 2 ^ 24 + dtid * 2 ^ 16 + rnr * 2 ^ 15) + (dest * 2 ^ 8 + (1 * 2 ^ 7 + src)) :=
    orMiddleBlock 8 15 _ _ _ (by omega) (by omega) (by omega)
      (by omega) (by omega)
  rw [e5]
  omega

/-- Parsing the identifier of a regular message recovers the fields. -/
lemma parse_message_id_message (p src dtid : Nat) (hp : p < 32) (hsrc1 : 1 ≤ src)
    (hsrc : src ≤ 127) (hdt : dtid ≤ 65535) :
    parseMessageId (p * 2 ^ 24 + dtid * 2 ^ 8 + src)
      = ⟨p, false, src, dtid, false, none, none⟩ := by
  have h1 : (p * 2 ^ 24 + dtid * 2 ^ 8 + src) >>> 24 &&& 0x1F = p := by
    rw [Nat.shiftRight_eq_div_pow]
    have h := andMaskEq ((p * 2 ^ 24 + dtid * 2 ^ 8 + src) / 2 ^ 24) 5
    norm_num at h ⊢
    omega
  have h2 : (p * 2 ^ 24 + dtid * 2 ^ 8 + src) &&& 0x80 = 0 := by
    have h := andBitEq (p * 2 ^ 24 + dtid * 2 ^ 8 + src) 7
    norm_num at h ⊢
    omega
  have h3 : (p * 2 ^ 24 + dtid * 2 ^ 8 + src) &&& 0x7F = src := by
    have h := andMaskEq (p * 2 ^ 24 + dtid * 2 ^ 8 + src) 7
    norm_num at h ⊢
    omega
  have h4 : (p * 2 ^ 24 + dtid * 2 ^ 8 + src) >>> 8 &&& 0xFFFF = dtid := by
    rw [Nat.shiftRight_eq_div_pow]
    have h := andMaskEq ((p * 2 ^ 24 + dtid * 2 ^ 8 + src) / 2 ^ 8) 16
    norm_num at h ⊢
    omega
  unfold parseMessageId
  simp only [h1, h2, h3, h4]
  rw [if_neg (by norm_num), if_neg (by omega : ¬ (src = 0))]
  simp

/-- Parsing the identifier of a service transfer recovers the fields. -/
lemma parse_message_id_service (p src dtid rnr dest : Nat) (hp : p < 32) (hsrc : src ≤ 127)
    (hdt : dtid ≤ 255) (hrnr : rnr ≤ 1) (hdest : dest ≤ 127) :
    parseMessageId (p * 2 ^ 24 + dtid * 2 ^ 16 + rnr * 2 ^ 15 + dest * 2 ^ 8 + 2 ^ 7 + src)
      = ⟨p, true, src, dtid, rnr == 1, some dest, none⟩ := by
  set v := p * 2 ^ 24 + dtid * 2 ^ 16 + rnr * 2 ^ 15 + dest * 2 ^ 8 + 2 ^ 7 + src with hv
  have h1 : v >>> 24 &&& 0x1F = p := by
    rw [Nat.shiftRight_eq_div_pow]
    have h := andMaskEq (v / 2 ^ 24) 5
    norm_num at h ⊢
    omega
  have h2 : v &&& 0x80 = 128 := by
    have h := andBitEq v 7
    norm_num at h ⊢
    omega
  have h3 : v &&& 0x7F = src := by
    have h := andMaskEq v 7
    norm_num at h ⊢
    omega
  have h4 : v >>> 16 &&& 0xFF = dtid := by
    rw [Nat.shiftRight_eq_div_pow]
    have h := andMaskEq (v / 2 ^ 16) 8
    norm_num at h ⊢
    omega
  have h5 : v &&& 0x8000 = rnr * 2 ^ 15 := by
    have h := andBitEq v 15
    norm_num at h ⊢
    omega
  have h6 : v >>> 8 &&& 0x7F = dest := by
    rw [Nat.shiftRight_eq_div_pow]
    have h := andMaskEq (v / 2 ^ 8) 7
    norm_num at h ⊢
    omega
  unfold parseMessageId
  simp only [h1, h2, h3, h4, h5, h6]
  rw [if_pos (by norm_num)]
  rcases Nat.le_one_iff_eq_zero_or_eq_one.mp hrnr with h | h <;> simp [h]

/-- The identifier of a well-formed regular message transfer, in arithmetic
form. -/
lemma transfer_message_id_message (p tid src : Nat) (dest : Option Nat) (rnr : Bool)
    (disc : Option Nat) (dtid crc : Nat) (payload : List Nat)
    (hp : p < 32) (hsrc1 : 1 ≤ src) (hsrc : src ≤ 127) (hdt : dtid ≤ 65535) :
    Transfer.message_id ⟨p, tid, src, dest, rnr, false, disc, dtid, crc, payload⟩
      = p * 2 ^ 24 + dtid * 2 ^ 8 + src := by
  rw [← message_id_message_arith p src dtid hp hsrc hdt]
  unfold Transfer.message_id
  dsimp only
  rw [if_neg (by omega : ¬ src = 0)]
  norm_num

/-- The identifier of a well-formed service transfer, in arithmetic form. -/
lemma transfer_message_id_service (p tid src : Nat) (dest : Nat) (rnr : Bool)
    (disc : Option Nat) (dtid crc : Nat) (payload : List Nat)
    (hp : p < 32) (hsrc : src ≤ 127) (hdt : dtid ≤ 255) (hdest : dest ≤ 127) :
    Transfer.message_id ⟨p, tid, src, some dest, rnr, true, disc, dtid, crc, payload⟩
      = p * 2 ^ 24 + dtid * 2 ^ 16 + (if rnr then 1 else 0) * 2 ^ 15 + dest * 2 ^ 8
        + 2 ^ 7 + src := by
  rw [← message_id_service_arith p src dtid (if rnr then 1 else 0) dest hp hsrc hdt
    (by split <;> omega) hdest]
  unfold Transfer.message_id
  cases rnr <;> norm_num

/-- Splitting a number into its low byte and the rest and recombining them. -/
lemma crc_split_recombine (x : Nat) : (x &&& 0xFF) + ((x >>> 8) <<< 8) = x := by
  have h1 := andMaskEq x 8
  rw [Nat.shiftRight_eq_div_pow, Nat.shiftLeft_eq]
  norm_num at h1 ⊢
  omega

/-- Central round-trip evaluation: `from_frames` applied to the frames of a
transfer whose identifier parses to `pr`, whose transfer id fits five bits, and
whose data type is registered consistently, succeeds and rebuilds the fields
from the parse, the registry entry and the reassembled payload bytes. -/
lemma from_frames_of_to_frames (registry : Nat → CompoundKind → Option DataTypeInfo)
    (t : Transfer) (pr : ParsedId)
    (htid : t.transfer_id < 32)
    (hparse : parseMessageId t.message_id = pr)
    (hsnm_pr : pr.service_not_message = t.service_not_message)
    (hdtid_pr : pr.data_type_id = t.data_type_id)
    (hreg : registry t.data_type_id
        (if t.service_not_message then CompoundKind.service else CompoundKind.message)
      = some ⟨t.data_type_id, t.data_type_crc⟩) :
    Transfer.from_frames registry t.to_frames
      = .ok { transfer_priority := pr.transfer_priority
              transfer_id := t.transfer_id
              source_node_id := pr.source_node_id
              dest_node_id := pr.dest_node_id
              request_not_response := pr.request_not_response
              service_not_message := pr.service_not_message
              discriminator := pr.discriminator
              data_type_id := t.data_type_id
              data_type_crc := t.data_type_crc
              payload := t.payload } := by
  have hframes_eq : t.to_frames
      = toFramesLoop t.message_id t.transfer_id 0 0x20 t.effective_payload := rfl
  obtain ⟨hlen, hget⟩ := toFramesLoop_spec t.message_id t.transfer_id
    t.effective_payload.length t.effective_payload (Nat.le_refl _) 0 0x20 (by decide)
  rw [← hframes_eq] at hlen hget
  have hpayl : ((t.to_frames).map (fun f => f.bytes.dropLast)).flatten
      = t.effective_payload := by
    rw [hframes_eq]
    exact toFramesLoop_payload t.message_id t.transfer_id t.effective_payload.length
      t.effective_payload (Nat.le_refl _) 0 0x20
  have hpos : 0 < t.to_frames.length := by rw [hlen]; omega
  obtain ⟨f0, rest, hfr⟩ : ∃ f0 rest, t.to_frames = f0 :: rest := by
    cases hc : t.to_frames with
    | nil => rw [hc] at hpos; simp at hpos
    | cons a l => exact ⟨a, l, rfl⟩
  obtain ⟨tail0, hf0, h80₀, h40₀, h20₀, h1F₀, h256₀⟩ := hget 0 hpos
  have htid32 : t.transfer_id % 32 = t.transfer_id := Nat.mod_eq_of_lt htid
  have hf0eq : f0 = ⟨t.message_id, (t.effective_payload.drop (7 * 0)).take 7 ++ [tail0]⟩ := by
    have hq : t.to_frames[0]? = some f0 := by
      rw [hfr]
      simp
    have hq' : t.to_frames[0]? = some ⟨t.message_id,
        (t.effective_payload.drop (7 * 0)).take 7 ++ [tail0]⟩ := by
      rw [List.getElem?_eq_getElem hpos]
      exact congrArg some
        ((List.get_eq_getElem t.to_frames ⟨0, hpos⟩).symm.trans hf0)
    rw [hq] at hq'
    exact Option.some_inj.mp hq'
  have hlast0 : f0.bytes.getLast? = some tail0 := by
    rw [hf0eq]
    simp [List.getLast?_concat]
  have hmid0 : f0.message_id = t.message_id := by rw [hf0eq]
  have hbytesne : ∀ f ∈ t.to_frames, f.bytes ≠ [] := by
    intro f hf
    obtain ⟨⟨j, hj⟩, hgetf⟩ := List.mem_iff_get.mp hf
    obtain ⟨tl, hfj, _⟩ := hget j hj
    rw [← hgetf, hfj]
    simp
  have hgood : ∀ (j : Nat) (hj : j < t.to_frames.length),
      GoodTail t.to_frames.length (tail0 &&& 0x1F) j ((t.to_frames.get ⟨j, hj⟩).tailByte) := by
    intro j hj
    obtain ⟨tl, hfj, h80, h40, h20, h1F, _⟩ := hget j hj
    have htb : (t.to_frames.get ⟨j, hj⟩).tailByte = tl := by
      rw [hfj]
      simp [Frame.tailByte, List.getLastD_eq_getLast?, List.getLast?_concat]
    have hjlen : j < (t.effective_payload.length - 1) / 7 + 1 := by rw [← hlen]; exact hj
    rw [htb, h1F₀]
    refine ⟨h1F, ?_, ?_, ?_, ?_, by simpa using h20⟩
    · intro hj0
      rw [h80, if_pos (by omega)]
      norm_num
    · intro hj0
      rw [h80, if_neg (by omega)]
    · intro hlast
      rw [hlen] at hlast
      rw [h40, if_pos (by omega)]
      norm_num
    · intro hnl
      rw [hlen] at hnl
      rw [h40, if_neg (by omega)]
  have hcheckok : checkTails t.to_frames.length (tail0 &&& 0x1F) 0 0 t.to_frames
      = .ok () := by
    rw [checkTails_ok_iff t.to_frames.length (tail0 &&& 0x1F) t.to_frames 0 0 hbytesne
      (by norm_num)]
    rw [tailsOk_iff_forall]
    intro j hj
    simpa using hgood j hj
  rw [hfr] at hcheckok hpayl
  rw [hfr]
  unfold Transfer.from_frames
  dsimp only
  rw [hlast0]
  dsimp only
  rw [hcheckok]
  dsimp only
  simp only [hmid0, hparse, hsnm_pr, hdtid_pr, hpayl, hreg]
  by_cases hp7 : 7 < t.payload.length
  · -- multi-frame: the CRC header is peeled and checked
    have heff : t.effective_payload
        = [crc16_from_bytes t.payload t.data_type_crc &&& 0xFF,
            crc16_from_bytes t.payload t.data_type_crc >>> 8] ++ t.payload := by
      unfold Transfer.effective_payload
      rw [if_pos hp7]
    have hefflen : t.effective_payload.length = t.payload.length + 2 := by
      rw [heff]
      simp
    have hmulti : 1 < (f0 :: rest).length := by
      rw [← hfr, hlen, hefflen]
      omega
    simp only [if_pos hmulti, heff]
    simp only [List.cons_append, List.nil_append, List.getElem?_cons_zero,
      List.getElem?_cons_succ, List.drop_succ_cons, List.drop_zero]
    rw [crc_split_recombine]
    simp only [if_neg (by simp : ¬ (crc16_from_bytes t.payload t.data_type_crc
      ≠ crc16_from_bytes t.payload t.data_type_crc))]
    simp only [h1F₀, htid32]
  · -- single frame: the payload is carried as is
    have heff : t.effective_payload = t.payload := by
      unfold Transfer.effective_payload
      rw [if_neg hp7]
    have hsingle : ¬ 1 < (f0 :: rest).length := by
      rw [← hfr, hlen, heff]
      omega
    simp only [if_neg hsingle, heff]
    simp only [h1F₀, htid32]

/-- **C1.** For every transfer with a registered data type and well-formed
fields (priority below 32, transfer id below 32, source node id at most 127
and nonzero for messages, 16-bit type id for messages, 8-bit type id and a
destination at most 127 for services, and a registry entry consistent with the
transfer's type id and CRC), `from_frames` applied to the frames produced by
`to_frames` reconstructs the transfer: same transfer id, priority, source node
id, destination (for services), data type id and payload.  The fields the wire
format does not carry for the given kind come back at their reset values:
no destination and no discriminator for messages, the request flag cleared for
messages, the discriminator always cleared. -/
theorem transfer_round_trip (registry : Nat → CompoundKind → Option DataTypeInfo)
    (t : Transfer)
    (hp : t.transfer_priority < 32)
    (htid : t.transfer_id < 32)
    (hsrc : t.source_node_id ≤ 127)
    (hmsg : t.service_not_message = false →
      1 ≤ t.source_node_id ∧ t.data_type_id ≤ 65535)
    (hsvc : t.service_not_message = true →
      t.data_type_id ≤ 255 ∧ ∃ d, t.dest_node_id = some d ∧ d ≤ 127)
    (hreg : registry t.data_type_id
        (if t.service_not_message then CompoundKind.service else CompoundKind.message)
      = some ⟨t.data_type_id, t.data_type_crc⟩) :
    Transfer.from_frames registry t.to_frames
      = .ok { t with
              dest_node_id := if t.service_not_message then t.dest_node_id else none
              request_not_response := t.service_not_message && t.request_not_response
              discriminator := none } := by
  obtain ⟨p, tid, src, dest, rnr, snm, disc, dtid, crc, payload⟩ := t
  dsimp only at hp htid hsrc hmsg hsvc hreg ⊢
  cases snm with
  | false =>
      obtain ⟨hsrc1, hdt⟩ := hmsg rfl
      have hmid := transfer_message_id_message p tid src dest rnr disc dtid crc payload
        hp hsrc1 hsrc hdt
      have hparse : parseMessageId
          (Transfer.message_id ⟨p, tid, src, dest, rnr, false, disc, dtid, crc, payload⟩)
          = ⟨p, false, src, dtid, false, none, none⟩ := by
        rw [hmid]
        exact parse_message_id_message p src dtid hp hsrc1 hsrc hdt
      have h := from_frames_of_to_frames registry
        ⟨p, tid, src, dest, rnr, false, disc, dtid, crc, payload⟩
        ⟨p, false, src, dtid, false, none, none⟩ htid hparse rfl rfl hreg
      simpa using h
  | true =>
      obtain ⟨hdt, d, hdest, hdle⟩ := hsvc rfl
      subst hdest
      have hmid := transfer_message_id_service p tid src d rnr disc dtid crc payload
        hp hsrc hdt hdle
      have hparse : parseMessageId
          (Transfer.message_id ⟨p, tid, src, some d, rnr, true, disc, dtid, crc, payload⟩)
          = ⟨p, true, src, dtid, rnr, some d, none⟩ := by
        rw [hmid]
        rw [parse_message_id_service p src dtid (if rnr then 1 else 0) d hp hsrc hdt
          (by cases rnr <;> simp) hdle]
        cases rnr <;> rfl
      have h := from_frames_of_to_frames registry
        ⟨p, tid, src, some d, rnr, true, disc, dtid, crc, payload⟩
        ⟨p, true, src, dtid, rnr, some d, none⟩ htid hparse rfl rfl hreg
      simpa using h

/-- A registry holding exactly one message type, id 341 with base CRC 0xBEEF;
used by the C1 witness. -/
def c1Registry : Nat → CompoundKind → Option DataTypeInfo :=
  fun i k => if i = 341 ∧ k = CompoundKind.message then some ⟨341, 0xBEEF⟩ else none

/-- A concrete well-formed nine-byte message transfer (multi-frame path);
used by the C1 witness. -/
def c1Transfer : Transfer :=
  ⟨16, 5, 42, none, false, false, none, 341, 0xBEEF, [1, 2, 3, 4, 5, 6, 7, 8, 9]⟩

/-- Witness for C1: the round trip applied to the concrete multi-frame message
transfer, every hypothesis discharged by computation. -/
theorem transfer_round_trip_witness :
    Transfer.from_frames c1Registry c1Transfer.to_frames
      = .ok { c1Transfer with
              dest_node_id := if c1Transfer.service_not_message then c1Transfer.dest_node_id
                else none
              request_not_response :=
                c1Transfer.service_not_message && c1Transfer.request_not_response
              discriminator := none } :=
  transfer_round_trip c1Registry c1Transfer (by decide) (by decide) (by decide)
    (fun _ => ⟨by decide, by decide⟩)
    (fun h => absurd h (by decide))
    rfl

/-- The expected 5-bit transfer id of a frame list: the low five bits of the
first frame's tail byte. -/
def expectedTid (f0 : Frame) : Nat := f0.tailByte &&& 0x1F

/-- Stated from the claim: some frame of the list breaks the tail-byte
discipline — its low five tail bits differ from frame 0's transfer id,
start-of-transfer is wrong for its position, end-of-transfer is wrong for its
position, or its toggle bit is not the alternation value for its index. -/
def TailDisciplineViolation (f0 : Frame) (rest : List Frame) : Prop :=
  ∃ (j : Nat) (hj : j < (f0 :: rest).length),
    ¬ GoodTail (f0 :: rest).length (expectedTid f0) j
      (((f0 :: rest).get ⟨j, hj⟩).tailByte)

/-- Stated from the claim: the data type id parsed from the first frame's
identifier is not registered for the parsed kind. -/
def UnknownDataType (registry : Nat → CompoundKind → Option DataTypeInfo)
    (f0 : Frame) : Prop :=
  registry (parseMessageId f0.message_id).data_type_id
      (if (parseMessageId f0.message_id).service_not_message then CompoundKind.service
       else CompoundKind.message) = none

/-- Stated from the claim: the list is multi-frame, the type is registered, the
reassembled payload starts with a two-byte little-endian CRC header, and the
CRC-16 recomputed over the remaining bytes with the type's base CRC differs
from that header. -/
def MultiFrameCrcMismatch (registry : Nat → CompoundKind → Option DataTypeInfo)
    (f0 : Frame) (rest : List Frame) : Prop :=
  1 < (f0 :: rest).length ∧
  ∃ (dt : DataTypeInfo) (b0 b1 : Nat),
    registry (parseMessageId f0.message_id).data_type_id
        (if (parseMessageId f0.message_id).service_not_message then CompoundKind.service
         else CompoundKind.message) = some dt ∧
    (((f0 :: rest).map (fun f => f.bytes.dropLast)).flatten)[0]? = some b0 ∧
    (((f0 :: rest).map (fun f => f.bytes.dropLast)).flatten)[1]? = some b1 ∧
    crc16_from_bytes ((((f0 :: rest).map (fun f => f.bytes.dropLast)).flatten).drop 2)
      dt.base_crc ≠ b0 + (b1 <<< 8)

/-- **C2.** On a non-empty frame list whose frames all carry at least one byte,
`from_frames` returns a `TransferError` exactly when the list violates the
tail-byte discipline (transfer-id mismatch with frame 0, misplaced
start-of-transfer or end-of-transfer, broken toggle alternation), the parsed
data type id is not registered, or — multi-frame only — the recomputed CRC-16
differs from the two-byte header. -/
theorem from_frames_transfer_error_iff
    (registry : Nat → CompoundKind → Option DataTypeInfo)
    (f0 : Frame) (rest : List Frame)
    (hbytes : ∀ f ∈ f0 :: rest, f.bytes ≠ []) :
    Transfer.from_frames registry (f0 :: rest) = .error .transferError ↔
      (TailDisciplineViolation f0 rest ∨ UnknownDataType registry f0 ∨
        MultiFrameCrcMismatch registry f0 rest) := by
  have hfne : f0.bytes ≠ [] := hbytes f0 (by simp)
  obtain ⟨tail0, hlast0⟩ : ∃ tl, f0.bytes.getLast? = some tl := by
    cases hgl : f0.bytes.getLast?
    · exact absurd (List.getLast?_eq_none_iff.mp hgl) hfne
    · exact ⟨_, rfl⟩
  have htid : expectedTid f0 = tail0 &&& 0x1F := by
    simp [expectedTid, Frame.tailByte, List.getLastD_eq_getLast?, hlast0]
  have hiff := checkTails_ok_iff (f0 :: rest).length (tail0 &&& 0x1F) (f0 :: rest) 0 0
    hbytes (by norm_num)
  rcases checkTails_ok_or_transferError (f0 :: rest).length (tail0 &&& 0x1F) (f0 :: rest)
      0 0 hbytes with hok | herr
  · -- the tail discipline holds: errors can only come from the registry or the CRC
    have hTok := hiff.mp hok
    have hnoviol : ¬ TailDisciplineViolation f0 rest := by
      rintro ⟨j, hj, hng⟩
      apply hng
      have h := (tailsOk_iff_forall (f0 :: rest).length (tail0 &&& 0x1F) (f0 :: rest) 0).mp
        hTok j hj
      simpa [htid] using h
    unfold Transfer.from_frames
    dsimp only
    rw [hlast0]
    dsimp only
    rw [hok]
    dsimp only
    rcases hreg : registry (parseMessageId f0.message_id).data_type_id
        (if (parseMessageId f0.message_id).service_not_message then CompoundKind.service
         else CompoundKind.message) with _ | dt
    · exact iff_of_true rfl (Or.inr (Or.inl hreg))
    · dsimp only
      have hUDT : ¬ UnknownDataType registry f0 := by
        intro h
        rw [UnknownDataType, hreg] at h
        cases h
      by_cases hmulti : 1 < (f0 :: rest).length
      · rw [if_pos hmulti]
        rcases hb0 : (((f0 :: rest).map (fun f => f.bytes.dropLast)).flatten)[0]?
            with _ | b0
        · rw [hb0]
          refine iff_of_false (by simp) ?_
          rintro (h | h | ⟨_, dt', b0', b1', _, hb0', _, _⟩)
          · exact hnoviol h
          · exact hUDT h
          · rw [hb0] at hb0'
            cases hb0'
        · rcases hb1 : (((f0 :: rest).map (fun f => f.bytes.dropLast)).flatten)[1]?
              with _ | b1
          · rw [hb0, hb1]
            refine iff_of_false (by simp) ?_
            rintro (h | h | ⟨_, dt', b0', b1', _, _, hb1', _⟩)
            · exact hnoviol h
            · exact hUDT h
            · rw [hb1] at hb1'
              cases hb1'
          · rw [hb0, hb1]
            dsimp only
            by_cases hcrc : crc16_from_bytes
                ((((f0 :: rest).map (fun f => f.bytes.dropLast)).flatten).drop 2)
                dt.base_crc ≠ b0 + (b1 <<< 8)
            · rw [if_pos hcrc]
              exact iff_of_true rfl
                (Or.inr (Or.inr ⟨hmulti, dt, b0, b1, hreg, hb0, hb1, hcrc⟩))
            · rw [if_neg hcrc]
              refine iff_of_false (by simp) ?_
              rintro (h | h | ⟨_, dt', b0', b1', hreg', hb0', hb1', hcrc'⟩)
              · exact hnoviol h
              · exact hUDT h
              · rw [hreg] at hreg'
                rw [hb0] at hb0'
                rw [hb1] at hb1'
                obtain rfl : dt = dt' := by injection hreg'
                obtain rfl : b0 = b0' := by injection hb0'
                obtain rfl : b1 = b1' := by injection hb1'
                exact hcrc hcrc'
      · rw [if_neg hmulti]
        refine iff_of_false (by simp) ?_
        rintro (h | h | ⟨hm, _⟩)
        · exact hnoviol h
        · exact hUDT h
        · exact hmulti hm
  · -- the tail discipline is violated: from_frames reports a TransferError
    have hviol : TailDisciplineViolation f0 rest := by
      have hnT : ¬ TailsOk (f0 :: rest).length (tail0 &&& 0x1F) 0 (f0 :: rest) := by
        intro hT
        rw [hiff.mpr hT] at herr
        cases herr
      rw [tailsOk_iff_forall] at hnT
      push_neg at hnT
      obtain ⟨j, hj, hng⟩ := hnT
      exact ⟨j, hj, by simpa [htid] using hng⟩
    unfold Transfer.from_frames
    dsimp only
    rw [hlast0]
    dsimp only
    rw [herr]
    exact iff_of_true rfl (Or.inl hviol)

/-- Witness for C2: a single frame whose tail byte 0x40 lacks the
start-of-transfer bit; sent through the iff at a registry with no entries,
it yields a TransferError. -/
theorem from_frames_transfer_error_iff_witness :
    Transfer.from_frames (fun _ _ => none) [⟨0, [0x40]⟩] = .error .transferError :=
  (from_frames_transfer_error_iff (fun _ _ => none) ⟨0, [0x40]⟩ []
      (by
        intro f hf
        simp only [List.mem_singleton] at hf
        subst hf
        simp)).mpr
    (Or.inl ⟨0, by decide, fun hg => hg.2.1 rfl (by decide)⟩)
